import Mathlib

/-!
Shallow embedding of pliers' result representation and merge algorithm
(src/pliers/extractors/base.py): the ExtractorResult record, its to_df
rendering, and merge_results.

Modelling conventions:
* A pandas cell is `Val`: a finite numeric value (`num`, modelled as a
  rational), a string (`str`), or a missing value (`nan`, covering both
  np.nan and None stored in object columns).
* A DataFrame is `DF`: an ordered list of column labels, one stored dtype
  per column, and rows as lists of cells.  A column label is `ColId.flat`
  for ordinary labels and `ColId.pair` for two-level (MultiIndex) labels.
* Machine floats are modelled as rationals: the merge logic only moves,
  compares, groups and averages values, none of which depends on binary
  rounding for the properties below.
* The per-row grouping key str(onset) + "_" + str(duration) built at
  base.py:145-146 is modelled as the pair (onset, duration): Python's str
  is injective on floats and "_" cannot occur inside a float repr, so the
  string key distinguishes exactly the (onset, duration) pairs.
* Scalar timing values (a lone stim.onset or np.nan) broadcast over the
  rows at construction time; this is observationally equivalent for every
  operation used downstream (see comment at mkExtractorResult).
-/

namespace Pliers

/-- A pandas cell: finite number, string, or missing value. -/
inductive Val where
  | num (q : ℚ)
  | str (s : String)
  | nan
  deriving DecidableEq, Repr

/-- Stored column dtype: `numeric` collapses pandas' int64/float64,
`obj` is the object dtype. -/
inductive Dtype where
  | numeric
  | obj
  deriving DecidableEq, Repr

/-- A column label: flat, or a two-level (extractor, feature) MultiIndex label. -/
inductive ColId where
  | flat (s : String)
  | pair (a b : String)
  deriving DecidableEq, Repr

/-- Aggregation function passed to pivot_table ("mean" / "first"). -/
inductive Agg where
  | mean
  | first
  deriving DecidableEq, Repr

/-- The `timing` option: True / False / "auto". -/
inductive TOpt where
  | tru
  | fls
  | auto
  deriving DecidableEq, Repr

/-- The `object_id` option: True / False / "auto". -/
inductive OOpt where
  | tru
  | fls
  | auto
  deriving DecidableEq, Repr

/-- The `format` option. -/
inductive Fmt where
  | wide
  | long
  deriving DecidableEq, Repr

/-- The `extractor_names` option of merge_results (True/False or one of the
four string modes). -/
inductive ENames where
  | tru
  | fls
  | prepend
  | drop
  | column
  | multi
  deriving DecidableEq, Repr

def Val.isNumericOrNan : Val → Bool
  | .num _ => true
  | .nan => true
  | .str _ => false

/-! ### Total orders used for pandas sorting

pandas sorts with missing values last; strings are compared
lexicographically; in mixed object columns we fix numbers before strings
(pandas' fallback ordering for mixed keys is unspecified but total). -/

/-- Lexicographic comparison of char lists via code points. -/
def lexLe : List Char → List Char → Bool
  | [], _ => true
  | _ :: _, [] => false
  | a :: as, b :: bs => if a = b then lexLe as bs else decide (a.toNat ≤ b.toNat)

/-- Lexicographic string comparison. -/
def strLe (a b : String) : Bool := lexLe a.toList b.toList

/-- Total order on cells: numbers by value, then strings, missing last. -/
def Val.le : Val → Val → Bool
  | .num a, .num b => decide (a ≤ b)
  | .num _, .str _ => true
  | .num _, .nan => true
  | .str _, .num _ => false
  | .str a, .str b => strLe a b
  | .str _, .nan => true
  | .nan, .num _ => false
  | .nan, .str _ => false
  | .nan, .nan => true

/-- Lexicographic order on cell tuples (grouping keys / sort keys). -/
def listLe : List Val → List Val → Bool
  | [], _ => true
  | _ :: _, [] => false
  | a :: as, b :: bs => if a = b then listLe as bs else Val.le a b

/-- Order on column labels (used only to canonicalize column sets). -/
def colIdLe : ColId → ColId → Bool
  | .flat s, .flat t => strLe s t
  | .flat _, .pair _ _ => true
  | .pair _ _, .flat _ => false
  | .pair a b, .pair c d => if a = c then strLe b d else strLe a c

/-! ### Generic list helpers -/

/-- Stable insertion into a Bool-ordered list. -/
def insertB {α} (le : α → α → Bool) (a : α) : List α → List α
  | [] => [a]
  | b :: bs => if le a b then a :: b :: bs else b :: insertB le a bs

/-- Stable insertion sort with a Bool comparator (models pandas' stable sorts). -/
def isortB {α} (le : α → α → Bool) : List α → List α
  | [] => []
  | a :: as => insertB le a (isortB le as)

/-- First index of `a` in a list, if present. -/
def idxOf? {α} [DecidableEq α] : List α → α → Option Nat
  | [], _ => none
  | x :: xs, a => if x = a then some 0 else (idxOf? xs a).map (· + 1)

/-- Map with the element index, starting at `i`. -/
def mapIdxFrom {α} (f : Nat → α → α) : Nat → List α → List α
  | _, [] => []
  | i, a :: as => f i a :: mapIdxFrom f (i + 1) as

/-- pandas groupby(...).cumcount(): for each position, how many earlier
positions carry the same key. -/
def cumcount {α} [DecidableEq α] (keys : List α) : List Nat :=
  (List.range keys.length).map fun i =>
    match keys[i]? with
    | some k => ((keys.take i).filter fun x => decide (x = k)).length
    | none => 0

/-! ### Order lemmas -/

theorem charToNat_inj {a b : Char} (h : a.toNat = b.toNat) : a = b :=
  Char.eq_of_val_eq (UInt32.ext h)

theorem lexLe_total : ∀ a b : List Char, lexLe a b = true ∨ lexLe b a = true := by
  intro a
  induction a with
  | nil => intro b; left; rfl
  | cons x xs ih =>
    intro b
    cases b with
    | nil => right; rfl
    | cons y ys =>
      by_cases hxy : x = y
      · subst hxy
        simp only [lexLe, if_pos rfl]
        exact ih ys
      · have hyx : y ≠ x := fun h => hxy h.symm
        simp only [lexLe, if_neg hxy, if_neg hyx, decide_eq_true_eq]
        rcases Nat.le_total x.toNat y.toNat with h | h
        · exact Or.inl h
        · exact Or.inr h

theorem lexLe_antisymm : ∀ a b : List Char, lexLe a b = true → lexLe b a = true → a = b := by
  intro a
  induction a with
  | nil =>
    intro b h1 h2
    cases b with
    | nil => rfl
    | cons y ys => simp [lexLe] at h2
  | cons x xs ih =>
    intro b h1 h2
    cases b with
    | nil => simp [lexLe] at h1
    | cons y ys =>
      by_cases hxy : x = y
      · subst hxy
        simp only [lexLe, if_pos rfl] at h1 h2
        exact congrArg (x :: ·) (ih ys h1 h2)
      · have hyx : y ≠ x := fun h => hxy h.symm
        simp only [lexLe, if_neg hxy, if_neg hyx, decide_eq_true_eq] at h1 h2
        exact absurd (charToNat_inj (Nat.le_antisymm h1 h2)) hxy

theorem lexLe_trans : ∀ a b c : List Char, lexLe a b = true → lexLe b c = true →
    lexLe a c = true := by
  intro a
  induction a with
  | nil => intro b c h1 h2; rfl
  | cons x xs ih =>
    intro b c h1 h2
    cases b with
    | nil => simp [lexLe] at h1
    | cons y ys =>
      cases c with
      | nil => simp [lexLe] at h2
      | cons z zs =>
        by_cases hxy : x = y
        · subst hxy
          simp only [lexLe, if_pos rfl] at h1
          by_cases hyz : x = z
          · subst hyz
            simp only [lexLe, if_pos rfl] at h2 ⊢
            exact ih ys zs h1 h2
          · simpa only [lexLe, if_neg hyz] using h2
        · have hyx : y ≠ x := fun h => hxy h.symm
          simp only [lexLe, if_neg hxy, decide_eq_true_eq] at h1
          by_cases hyz : y = z
          · subst hyz
            simp only [lexLe, if_neg hxy, decide_eq_true_eq]
            exact h1
          · simp only [lexLe, if_neg hyz, decide_eq_true_eq] at h2
            by_cases hxz : x = z
            · subst hxz
              exact absurd (charToNat_inj (Nat.le_antisymm h1 h2)) hxy
            · simp only [lexLe, if_neg hxz, decide_eq_true_eq]
              exact Nat.le_trans h1 h2

theorem strLe_total (a b : String) : strLe a b = true ∨ strLe b a = true :=
  lexLe_total a.toList b.toList

theorem strLe_antisymm {a b : String} (h1 : strLe a b = true) (h2 : strLe b a = true) :
    a = b := by
  cases a with
  | mk l =>
    cases b with
    | mk m =>
      have : l = m := lexLe_antisymm l m h1 h2
      rw [this]

theorem strLe_trans {a b c : String} (h1 : strLe a b = true) (h2 : strLe b c = true) :
    strLe a c = true :=
  lexLe_trans a.toList b.toList c.toList h1 h2

theorem Val.le_total : ∀ a b : Val, Val.le a b = true ∨ Val.le b a = true := by
  intro a b
  cases a <;> cases b <;> simp [Val.le]
  · exact (le_or_lt _ _).imp (fun h => h) (fun h => h.le)
  · exact strLe_total _ _

theorem Val.le_antisymm : ∀ a b : Val, Val.le a b = true → Val.le b a = true → a = b := by
  intro a b h1 h2
  cases a <;> cases b <;> simp_all [Val.le]
  · exact h1.antisymm h2
  · exact strLe_antisymm h1 h2

theorem Val.le_trans : ∀ a b c : Val, Val.le a b = true → Val.le b c = true →
    Val.le a c = true := by
  intro a b c h1 h2
  cases a <;> cases b <;> cases c <;> simp_all [Val.le]
  · exact h1.trans h2
  · exact strLe_trans h1 h2

theorem listLe_total : ∀ a b : List Val, listLe a b = true ∨ listLe b a = true := by
  intro a
  induction a with
  | nil => intro b; left; rfl
  | cons x xs ih =>
    intro b
    cases b with
    | nil => right; rfl
    | cons y ys =>
      by_cases hxy : x = y
      · subst hxy
        simp only [listLe, if_pos rfl]
        exact ih ys
      · have hyx : y ≠ x := fun h => hxy h.symm
        simp only [listLe, if_neg hxy, if_neg hyx]
        exact Val.le_total x y

theorem listLe_trans : ∀ a b c : List Val, listLe a b = true → listLe b c = true →
    listLe a c = true := by
  intro a
  induction a with
  | nil => intro b c h1 h2; rfl
  | cons x xs ih =>
    intro b c h1 h2
    cases b with
    | nil => simp [listLe] at h1
    | cons y ys =>
      cases c with
      | nil => simp [listLe] at h2
      | cons z zs =>
        by_cases hxy : x = y
        · subst hxy
          simp only [listLe, if_pos rfl] at h1
          by_cases hyz : x = z
          · subst hyz
            simp only [listLe, if_pos rfl] at h2 ⊢
            exact ih ys zs h1 h2
          · simpa only [listLe, if_neg hyz] using h2
        · simp only [listLe, if_neg hxy] at h1
          by_cases hyz : y = z
          · subst hyz
            simp only [listLe, if_neg hxy]
            exact h1
          · simp only [listLe, if_neg hyz] at h2
            by_cases hxz : x = z
            · subst hxz
              exact absurd (Val.le_antisymm x y h1 h2) hxy
            · simp only [listLe, if_neg hxz]
              exact Val.le_trans x y z h1 h2

/-! ### Insertion sort lemmas -/

theorem perm_insertB {α} (le : α → α → Bool) (a : α) :
    ∀ l : List α, List.Perm (insertB le a l) (a :: l) := by
  intro l
  induction l with
  | nil => simp [insertB]
  | cons b bs ih =>
    simp only [insertB]
    by_cases h : le a b = true
    · simp [h]
    · simp only [h, if_false]
      exact (ih.cons b).trans (List.Perm.swap a b bs)

theorem perm_isortB {α} (le : α → α → Bool) : ∀ l : List α, List.Perm (isortB le l) l := by
  intro l
  induction l with
  | nil => simp [isortB]
  | cons a as ih =>
    exact ((perm_insertB le a (isortB le as)).trans (ih.cons a))

theorem mem_isortB {α} (le : α → α → Bool) (l : List α) (x : α) :
    x ∈ isortB le l ↔ x ∈ l :=
  (perm_isortB le l).mem_iff

theorem pairwise_insertB {α} (le : α → α → Bool)
    (htot : ∀ x y, le x y = true ∨ le y x = true)
    (htr : ∀ x y z, le x y = true → le y z = true → le x z = true)
    (a : α) : ∀ l : List α, l.Pairwise (fun x y => le x y = true) →
      (insertB le a l).Pairwise (fun x y => le x y = true) := by
  intro l
  induction l with
  | nil => intro _; simp [insertB]
  | cons b bs ih =>
    intro hp
    rcases List.pairwise_cons.mp hp with ⟨hb, hbs⟩
    simp only [insertB]
    by_cases h : le a b = true
    · simp only [h, if_true]
      refine List.pairwise_cons.mpr ⟨?_, hp⟩
      intro x hx
      rcases List.mem_cons.mp hx with hx1 | hx1
      · subst hx1; exact h
      · exact htr a b x h (hb x hx1)
    · simp only [h, if_false]
      refine List.pairwise_cons.mpr ⟨?_, ih hbs⟩
      intro x hx
      have hx2 := (perm_insertB le a bs).mem_iff.mp hx
      rcases List.mem_cons.mp hx2 with hx3 | hx3
      · rw [hx3]
        rcases htot a b with h2 | h2
        · exact absurd h2 h
        · exact h2
      · exact hb x hx3

theorem pairwise_isortB {α} (le : α → α → Bool)
    (htot : ∀ x y, le x y = true ∨ le y x = true)
    (htr : ∀ x y z, le x y = true → le y z = true → le x z = true) :
    ∀ l : List α, (isortB le l).Pairwise (fun x y => le x y = true) := by
  intro l
  induction l with
  | nil => simp [isortB]
  | cons a as ih => exact pairwise_insertB le htot htr a (isortB le as) ih

/-! ### idxOf? and mapIdxFrom lemmas -/

theorem idxOf?_lt_length {α} [DecidableEq α] :
    ∀ (l : List α) (a : α) (i : Nat), idxOf? l a = some i → i < l.length := by
  intro l
  induction l with
  | nil => intro a i h; simp [idxOf?] at h
  | cons x xs ih =>
    intro a i h
    simp only [idxOf?] at h
    by_cases hx : x = a
    · simp only [hx, if_pos rfl] at h
      cases h
      simp
    · simp only [if_neg hx, Option.map_eq_some'] at h
      rcases h with ⟨j, hj, rfl⟩
      have := ih a j hj
      simpa [Nat.succ_lt_succ_iff] using this

theorem getD_idxOf? {α} [DecidableEq α] :
    ∀ (l : List α) (a : α) (i : Nat) (d : α), idxOf? l a = some i → l.getD i d = a := by
  intro l
  induction l with
  | nil => intro a i d h; simp [idxOf?] at h
  | cons x xs ih =>
    intro a i d h
    simp only [idxOf?] at h
    by_cases hx : x = a
    · simp only [hx, if_pos rfl] at h
      cases h
      simpa using hx
    · simp only [if_neg hx, Option.map_eq_some'] at h
      rcases h with ⟨j, hj, rfl⟩
      simpa using ih a j d hj

theorem idxOf?_eq_none_iff {α} [DecidableEq α] :
    ∀ (l : List α) (a : α), idxOf? l a = none ↔ a ∉ l := by
  intro l
  induction l with
  | nil => intro a; simp [idxOf?]
  | cons x xs ih =>
    intro a
    simp only [idxOf?]
    by_cases hx : x = a
    · simp [hx]
    · simp [if_neg hx, Option.map_eq_none', ih a, hx, Ne.symm hx]

theorem idxOf?_isSome_of_mem {α} [DecidableEq α] {l : List α} {a : α} (h : a ∈ l) :
    ∃ i, idxOf? l a = some i := by
  cases hi : idxOf? l a with
  | none => exact absurd h ((idxOf?_eq_none_iff l a).mp hi)
  | some i => exact ⟨i, rfl⟩

theorem idxOf?_append_left {α} [DecidableEq α] :
    ∀ (l m : List α) (a : α), a ∈ l → idxOf? (l ++ m) a = idxOf? l a := by
  intro l
  induction l with
  | nil => intro m a h; simp at h
  | cons x xs ih =>
    intro m a h
    simp only [List.cons_append, idxOf?]
    by_cases hx : x = a
    · simp [hx]
    · have : a ∈ xs := by
        rcases List.mem_cons.mp h with h1 | h1
        · exact absurd h1.symm hx
        · exact h1
      simp [if_neg hx, ih m a this]

theorem idxOf?_append_right {α} [DecidableEq α] :
    ∀ (l m : List α) (a : α), a ∉ l →
      idxOf? (l ++ m) a = (idxOf? m a).map (· + l.length) := by
  intro l
  induction l with
  | nil =>
    intro m a _
    simp only [List.nil_append, List.length_nil]
    cases idxOf? m a <;> simp
  | cons x xs ih =>
    intro m a h
    have hx : x ≠ a := fun hxa => h (by simp [hxa])
    have hxs : a ∉ xs := fun hm => h (by simp [hm])
    have hih := ih m a hxs
    cases hm : idxOf? m a with
    | none =>
      rw [hm] at hih
      simp only [Option.map_none'] at hih
      simp [List.cons_append, idxOf?, if_neg hx, List.append_eq, hih]
    | some j =>
      rw [hm] at hih
      simp only [Option.map_some'] at hih
      simp only [List.cons_append, idxOf?, if_neg hx, List.append_eq, Option.map_some',
        List.length_cons]
      rw [hih]
      simp only [Option.map_some']
      exact congrArg some (by omega)

theorem length_mapIdxFrom {α} (f : Nat → α → α) :
    ∀ (i : Nat) (l : List α), (mapIdxFrom f i l).length = l.length := by
  intro i l
  induction l generalizing i with
  | nil => rfl
  | cons a as ih => simp [mapIdxFrom, ih]

theorem getD_mapIdxFrom {α} (f : Nat → α → α) :
    ∀ (l : List α) (i j : Nat) (d : α), j < l.length →
      (mapIdxFrom f i l).getD j d = f (i + j) (l.getD j d) := by
  intro l
  induction l with
  | nil => intro i j d h; simp at h
  | cons a as ih =>
    intro i j d h
    cases j with
    | zero => simp [mapIdxFrom]
    | succ j2 =>
      simp only [mapIdxFrom, List.getD_cons_succ]
      have : j2 < as.length := by simpa [Nat.succ_lt_succ_iff] using h
      rw [ih (i + 1) j2 d this]
      congr 1
      omega

theorem set_getD_self {α} : ∀ (l : List α) (i : Nat) (d : α), l.set i (l.getD i d) = l := by
  intro l
  induction l with
  | nil => intro i d; rfl
  | cons a as ih =>
    intro i d
    cases i with
    | zero => simp
    | succ j =>
      show a :: as.set j ((a :: as).getD (j + 1) d) = a :: as
      rw [List.getD_cons_succ, ih j d]

/-! ### The DataFrame model -/

/-- A pandas DataFrame: ordered column labels, stored dtypes, rows of cells. -/
structure DF where
  cols : List ColId
  dtypes : List Dtype
  rows : List (List Val)
  deriving DecidableEq, Repr

namespace DF

/-- Index of a column label (first occurrence, as pandas label lookup). -/
def colIdx (df : DF) (c : ColId) : Option Nat := idxOf? df.cols c

/-- Cell of a row under a column label; missing labels / short rows give nan
(neither occurs on well-formed frames). -/
def cell (df : DF) (row : List Val) (c : ColId) : Val :=
  match df.colIdx c with
  | some i => row.getD i Val.nan
  | none => Val.nan

/-- The cells of one column. -/
def colVals (df : DF) (c : ColId) : List Val :=
  df.rows.map fun row => df.cell row c

/-- Stored dtype of a column. -/
def dtypeOfCol (df : DF) (c : ColId) : Dtype :=
  match df.colIdx c with
  | some i => df.dtypes.getD i Dtype.obj
  | none => Dtype.obj

/-- df.insert(0, c, vals). -/
def insertCol (df : DF) (c : ColId) (dt : Dtype) (vals : List Val) : DF :=
  ⟨c :: df.cols, dt :: df.dtypes, (df.rows.zip vals).map fun rv => rv.2 :: rv.1⟩

/-- df[c] = vals (new trailing column). -/
def appendCol (df : DF) (c : ColId) (dt : Dtype) (vals : List Val) : DF :=
  ⟨df.cols ++ [c], df.dtypes ++ [dt], (df.rows.zip vals).map fun rv => rv.1 ++ [rv.2]⟩

/-- df[c] = scalar (broadcast over rows). -/
def appendConst (df : DF) (c : ColId) (dt : Dtype) (v : Val) : DF :=
  df.appendCol c dt (df.rows.map fun _ => v)

/-- df.drop(c, axis=1); missing labels leave the frame unchanged (the merge
code only drops labels it knows are present). -/
def dropCol (df : DF) (c : ColId) : DF :=
  match df.colIdx c with
  | none => df
  | some i => ⟨df.cols.eraseIdx i, df.dtypes.eraseIdx i, df.rows.map fun row => row.eraseIdx i⟩

end DF

/-- dtype pandas infers for a freshly created column of cells. -/
def dtypeOfCells (cells : List Val) : Dtype :=
  if cells.all Val.isNumericOrNan then Dtype.numeric else Dtype.obj

/-- Column `j` of a raw value matrix. -/
def colOfMatrix (d : List (List Val)) (j : Nat) : List Val :=
  d.map fun row => row.getD j Val.nan

/-- The sentinel string substituted for missing index values (base.py:280). -/
def sentinel : Val := Val.str "PlAcEholdER"

def fillCell (v : Val) : Val := if v = Val.nan then sentinel else v

namespace DF

/-- data[ind_cols] = data[ind_cols].fillna("PlAcEholdER") (base.py:280).
A column that actually held missing values becomes object-dtyped. -/
def fillnaCols (df : DF) (cs : List ColId) : DF :=
  let idxs := cs.filterMap df.colIdx
  { cols := df.cols
    dtypes := mapIdxFrom
      (fun i dt =>
        if i ∈ idxs ∧ df.rows.any (fun row => row.getD i Val.nan = Val.nan) then Dtype.obj else dt)
      0 df.dtypes
    rows := df.rows.map fun row =>
      mapIdxFrom (fun i v => if i ∈ idxs then fillCell v else v) 0 row }

/-- data[ind_cols] = data[ind_cols].replace(old, new) (base.py:289).
pandas keeps the stored (object) dtype here, which is what makes the
explicit astype on the next source line necessary. -/
def replaceCols (df : DF) (cs : List ColId) (old new : Val) : DF :=
  let idxs := cs.filterMap df.colIdx
  { cols := df.cols
    dtypes := df.dtypes
    rows := df.rows.map fun row =>
      mapIdxFrom (fun i v => if i ∈ idxs then (if v = old then new else v) else v) 0 row }

end DF

/-- One cell conversion of astype: converting an arbitrary non-numeric string
to a numeric dtype fails (numeric-looking strings never reach this point in
the merge pipeline, so their parse is not modelled). -/
def astypeCell (dt : Dtype) (v : Val) : Option Val :=
  match dt, v with
  | .numeric, .num q => some (.num q)
  | .numeric, .nan => some .nan
  | .numeric, .str _ => none
  | .obj, v => some v

namespace DF

/-- astype on one column: convert the cells and set the stored dtype. -/
def astypeCol (df : DF) (c : ColId) (dt : Dtype) : Except String DF :=
  match df.colIdx c with
  | none => .ok df
  | some i =>
    match df.rows.mapM (fun row => (astypeCell dt (row.getD i Val.nan)).map fun v => row.set i v) with
    | none => .error "could not convert string to float"
    | some rows2 => .ok ⟨df.cols, df.dtypes.set i dt, rows2⟩

/-- data[ind_cols] = data[ind_cols].astype(dict(zip(ind_cols, dtypes)))
(base.py:290). -/
def astypeCols (df : DF) : List (ColId × Dtype) → Except String DF
  | [] => .ok df
  | cd :: rest => do (← df.astypeCol cd.1 cd.2).astypeCols rest

/-- df.melt(index_cols, var_name="feature") (base.py:163): un-pivot every
non-index column into (feature, value) records, stacking column by column. -/
def melt (df : DF) (idCols : List ColId) : DF :=
  let valueCols := df.cols.filter fun c => c ∉ idCols
  let colName : ColId → String := fun c =>
    match c with
    | .flat s => s
    | .pair a b => a ++ "/" ++ b
  let valueDtype : Dtype :=
    if valueCols.all fun c => df.dtypeOfCol c = Dtype.numeric then Dtype.numeric else Dtype.obj
  { cols := idCols ++ [ColId.flat "feature", ColId.flat "value"]
    dtypes := (idCols.map df.dtypeOfCol) ++ [Dtype.obj, valueDtype]
    rows := valueCols.flatMap fun vc =>
      df.rows.map fun row =>
        (idCols.map fun c => df.cell row c) ++ [Val.str (colName vc), df.cell row vc] }

end DF

/-- Aggregation of the values that share one (index, feature) group.  Both
pandas reducers skip missing values; a group with no remaining value gives
nan. -/
def aggApply (a : Agg) (vs : List Val) : Val :=
  match a with
  | .mean =>
    let nums := vs.filterMap fun v => match v with | Val.num q => some q | _ => none
    if nums.isEmpty then Val.nan else Val.num (nums.sum / nums.length)
  | .first => ((vs.filter fun v => v ≠ Val.nan).headD Val.nan)

namespace DF

/-- data.pivot_table(index=ind, columns=ccol, values=vcol, aggfunc=agg)
followed by .reset_index() (base.py:286-287).  Rows whose grouping key
contains a missing value are dropped by the underlying groupby — the pandas
behaviour (pandas-dev/pandas#3729) that the sentinel substitution works
around.  Group keys and the generated feature columns come out sorted. -/
def pivotTable (df : DF) (ind : List ColId) (ccol vcol : ColId) (agg : Agg) : DF :=
  let keyOf : List Val → List Val := fun row => ind.map fun c => df.cell row c
  let kept := df.rows.filter fun row => (keyOf row).all fun v => v ≠ Val.nan
  let keys := isortB listLe (kept.map keyOf).dedup
  let feats := isortB Val.le (kept.map fun row => df.cell row ccol).dedup
  let featName : Val → String := fun f =>
    match f with
    | .str s => s
    | .num q => toString q
    | .nan => "nan"
  { cols := ind ++ feats.map fun f => ColId.flat (featName f)
    dtypes := (ind.map df.dtypeOfCol) ++ feats.map fun _ =>
      match agg with
      | .mean => Dtype.numeric
      | .first => df.dtypeOfCol vcol
    rows := keys.map fun k =>
      k ++ feats.map fun f =>
        aggApply agg
          ((kept.filter fun row => keyOf row = k ∧ df.cell row ccol = f).map fun row =>
            df.cell row vcol) }

/-- data.sort_values(keyCols).reset_index(drop=True): stable ascending sort,
missing values last. -/
def sortRows (df : DF) (keyCols : List ColId) : DF :=
  let key : List Val → List Val := fun row => keyCols.map fun c => df.cell row c
  ⟨df.cols, df.dtypes, isortB (fun r1 r2 => listLe (key r1) (key r2)) df.rows⟩

end DF

/-! ### DataFrame lemmas -/

/-- Rows match the column list in width. -/
def DF.WF (df : DF) : Prop := ∀ row ∈ df.rows, row.length = df.cols.length

instance (df : DF) : Decidable df.WF :=
  inferInstanceAs (Decidable (∀ row ∈ df.rows, row.length = df.cols.length))

theorem getD_append_left {α} :
    ∀ (l m : List α) (i : Nat) (d : α), i < l.length → (l ++ m).getD i d = l.getD i d := by
  intro l
  induction l with
  | nil => intro m i d h; simp at h
  | cons a as ih =>
    intro m i d h
    cases i with
    | zero => rfl
    | succ j =>
      simp only [List.cons_append, List.getD_cons_succ]
      exact ih m j d (by simpa [Nat.succ_lt_succ_iff] using h)

theorem getD_append_right_head {α} :
    ∀ (l : List α) (v d : α), (l ++ [v]).getD l.length d = v := by
  intro l
  induction l with
  | nil => intro v d; rfl
  | cons a as ih => intro v d; simpa using ih v d

namespace DF

theorem cols_insertCol (df : DF) (c : ColId) (dt : Dtype) (vals : List Val) :
    (df.insertCol c dt vals).cols = c :: df.cols := rfl

theorem rows_insertCol (df : DF) (c : ColId) (dt : Dtype) (vals : List Val) :
    (df.insertCol c dt vals).rows = (df.rows.zip vals).map fun rv => rv.2 :: rv.1 := rfl

theorem WF_insertCol {df : DF} (hwf : df.WF) (c : ColId) (dt : Dtype) {vals : List Val} :
    (df.insertCol c dt vals).WF := by
  intro row hrow
  simp only [insertCol, List.mem_map] at hrow
  rcases hrow with ⟨rv, hrv, rfl⟩
  simp only [insertCol, List.length_cons]
  rw [hwf rv.1 (List.mem_zip hrv).1]

end DF

/-- Mapping a function of the first components over a zip of equal-length
lists equals mapping over the first list. -/
theorem map_zip_fst {α β γ} (l1 : List α) (l2 : List β) (h : l2.length = l1.length)
    (f : α → γ) : (l1.zip l2).map (fun rv => f rv.1) = l1.map f := by
  calc (l1.zip l2).map (fun rv => f rv.1) = ((l1.zip l2).map Prod.fst).map f := by
        rw [List.map_map]; rfl
    _ = l1.map f := by rw [List.map_fst_zip l1 l2 (le_of_eq h.symm)]

namespace DF

theorem colVals_insertCol_self {df : DF} (c : ColId) (dt : Dtype) {vals : List Val}
    (h : vals.length = df.rows.length) :
    (df.insertCol c dt vals).colVals c = vals := by
  simp only [colVals, cell, insertCol, colIdx, idxOf?, if_pos rfl, List.map_map]
  refine Eq.trans (List.map_congr_left ?_) (List.map_snd_zip df.rows vals (le_of_eq h))
  intro rv _
  rfl

theorem colVals_insertCol_other {df : DF} {c c2 : ColId} (dt : Dtype) {vals : List Val}
    (hne : c ≠ c2) (h : vals.length = df.rows.length) :
    (df.insertCol c dt vals).colVals c2 = df.colVals c2 := by
  cases hi : idxOf? df.cols c2 with
  | none =>
    simp only [colVals, cell, insertCol, colIdx, idxOf?, if_neg hne, hi, Option.map_none',
      List.map_map]
    exact Eq.trans (List.map_congr_left (fun rv _ => rfl))
      (map_zip_fst df.rows vals h (fun _ => Val.nan))
  | some i =>
    simp only [colVals, cell, insertCol, colIdx, idxOf?, if_neg hne, hi, Option.map_some',
      List.map_map]
    exact Eq.trans (List.map_congr_left (fun rv _ => rfl))
      (map_zip_fst df.rows vals h (fun row => row.getD i Val.nan))

end DF

/-! ### The domain model: Stim, Extractor, History, ExtractorResult -/

/-- The Stim collaborator, reduced to the interface base.py consumes:
name / filename / class / scalar timing defaults / optional history
(only ever stringified, so a string suffices). -/
structure Stim where
  name : Option String
  filename : Option String
  className : String
  onset : Option ℚ
  duration : Option ℚ
  order : Option ℚ
  history : Option String
  deriving DecidableEq, Repr

/-- The Extractor collaborator: the modelled extractor exposes a name and no
custom _to_df/_to_array routine (the default rendering path of base.py). -/
structure Extractor where
  name : String
  deriving DecidableEq, Repr

/-- The transformation history attached to a result; to_df only reads
history.to_df().iloc[0].source_file, so the record keeps that field. -/
structure History where
  source_file : String
  deriving DecidableEq, Repr

/-- ExtractorResult (base.py:35-89).  `data` is None exactly when the
constructor was given raw-only input (np.array(None) is not tabular, which
is what the downstream shape access sees).  Timing vectors are stored
broadcast to one entry per row. -/
structure ExtractorResult where
  data : Option (List (List Val))
  stim : Stim
  extractor : Extractor
  features : Option (List String)
  raw : Option Unit
  onsets : List (Option ℚ)
  durations : List (Option ℚ)
  orders : List (Option ℚ)
  history : Option History
  deriving DecidableEq, Repr

/-- ExtractorResult.__init__ (base.py:57-89).  Raises when both data and raw
are None; otherwise timing vectors default to the stim's scalar timing
(np.nan when that is also absent), broadcast over the rows.  Broadcasting a
scalar at construction is observationally equivalent to the source's lazy
scalar: pd.Series of the scalar has length 1, so base.py:149 uses
np.arange(n), which equals the cumcount of a constant key; every other
consumer broadcasts. -/
def mkExtractorResult (data : Option (List (List Val))) (stim : Stim) (extractor : Extractor)
    (features : Option (List String)) (onsets durations orders : Option (List (Option ℚ)))
    (raw : Option Unit) : Except String ExtractorResult :=
  if data = none ∧ raw = none then
    .error "At least one of data and raw must be a value other than None."
  else
    let n := (data.map List.length).getD 0
    .ok { data := data, stim := stim, extractor := extractor, features := features, raw := raw,
          onsets := onsets.getD (List.replicate n stim.onset),
          durations := durations.getD (List.replicate n stim.duration),
          orders := orders.getD (List.replicate n stim.order),
          history := none }

/-- Shape of np.array(data): defined for a non-ragged 2-d matrix. -/
def shape2 (d : List (List Val)) : Option (Nat × Nat) :=
  match d with
  | [] => none
  | r :: rs => if rs.all fun x => x.length = r.length then some (rs.length + 1, r.length) else none

def optVal (o : Option ℚ) : Val :=
  match o with
  | some q => Val.num q
  | none => Val.nan

def optStrVal (o : Option String) : Val :=
  match o with
  | some s => Val.str s
  | none => Val.nan

/-- Synthetic feature names feature_1 .. feature_k (base.py:131-133). -/
def featNames (k : Nat) : List String :=
  (List.range k).map fun i => "feature_" ++ toString (i + 1)

/-- pd.DataFrame(data, columns=features) (base.py:134). -/
def baseDF (d : List (List Val)) (features : List String) : DF :=
  { cols := features.map ColId.flat
    dtypes := (List.range features.length).map fun j => dtypeOfCells (colOfMatrix d j)
    rows := d }

/-- The object_id insertion step of to_df (base.py:144-152), returning the
frame plus the index_cols accumulated so far.  The grouping key is the
(onset, duration) pair (see header note on the string key). -/
def objectIdStep (r : ExtractorResult) (object_id : OOpt) (df : DF) : DF × List ColId :=
  if object_id ≠ OOpt.fls ∧ ColId.flat "object_id" ∉ df.cols then
    let idx := r.onsets.zip r.durations
    if object_id = OOpt.tru ∨ (object_id = OOpt.auto ∧ 1 < idx.dedup.length) then
      let ids := if idx.length = 1 then List.range df.rows.length else cumcount idx
      (df.insertCol (ColId.flat "object_id") Dtype.numeric (ids.map fun i => Val.num i),
       [ColId.flat "object_id"])
    else (df, [])
  else (df, [])

/-- The timing-column step of to_df (base.py:154-160): inserted

unconditionally for True, and for "auto" when some duration or order is
finite (onsets alone do not trigger insertion, exactly as in the source). -/
def timingStep (r : ExtractorResult) (timing : TOpt) (p : DF × List ColId) : DF × List ColId :=
  if timing = TOpt.tru ∨
      (timing = TOpt.auto ∧ ((∃ x ∈ r.durations, x ≠ none) ∨ ∃ x ∈ r.orders, x ≠ none)) then
    (((p.1.insertCol (ColId.flat "duration") Dtype.numeric (r.durations.map optVal)).insertCol
        (ColId.flat "order") Dtype.numeric (r.orders.map optVal)).insertCol
        (ColId.flat "onset") Dtype.numeric (r.onsets.map optVal),
     p.2 ++ [ColId.flat "onset", ColId.flat "order", ColId.flat "duration"])
  else p

/-- The extractor-name step of to_df (base.py:165-170): a trailing
`extractor` column in long format, a two-level column index in wide. -/
def extractorNameStep (name : String) (extractor_name : Bool) (format : Fmt) (df : DF) : DF :=
  if extractor_name then
    if format = Fmt.long then df.appendConst (ColId.flat "extractor") Dtype.obj (Val.str name)
    else { df with cols := df.cols.map fun c =>
            match c with
            | .flat s => ColId.pair name s
            | .pair a _ => ColId.pair name a }
  else df

/-- The metadata step of to_df (base.py:172-179).  The stim history string
falls back to "" when the stim has no history, but source_file dereferences
the result's own history attribute, which raises when it was never set. -/
def metadataStep (r : ExtractorResult) (metadata : Bool) (df : DF) : Except String DF :=
  if metadata then
    match r.history with
    | none => .error "NoneType object has no attribute to_df"
    | some h =>
      .ok (((((df.appendConst (ColId.flat "stim_name") Dtype.obj (optStrVal r.stim.name)).appendConst
          (ColId.flat "class") Dtype.obj (Val.str r.stim.className)).appendConst
          (ColId.flat "filename") Dtype.obj (optStrVal r.stim.filename)).appendConst
          (ColId.flat "history") Dtype.obj
            (Val.str (r.stim.history.getD ""))).appendConst
          (ColId.flat "source_file") Dtype.obj (Val.str h.source_file))
  else .ok df

/-- ExtractorResult.to_df (base.py:91-179), default rendering path (the
modelled extractor has no _to_df).  Shape and length validation is hoisted
to the front: the source raises the same failures inside pandas calls, and
no claim depends on which malformed input fails first. -/
def ExtractorResult.to_df (r : ExtractorResult) (timing : TOpt) (metadata : Bool)
    (format : Fmt) (extractor_name : Bool) (object_id : OOpt) : Except String DF :=
  match r.data with
  | none => .error "data is not array-like"
  | some d =>
    match shape2 d with
    | none => .error "data is not a rectangular 2-d array"
    | some nk =>
      let featuresE : Except String (List String) :=
        match r.features with
        | some fs =>
          if fs.length = nk.2 then .ok fs else .error "features length must match data columns"
        | none => .ok (featNames nk.2)
      match featuresE with
      | .error e => .error e
      | .ok features =>
        if r.onsets.length = nk.1 ∧ r.durations.length = nk.1 ∧ r.orders.length = nk.1 then
          let p1 := objectIdStep r object_id (baseDF d features)
          let p2 := timingStep r timing p1
          let df3 := if format = Fmt.long then p2.1.melt p2.2 else p2.1
          let df4 := extractorNameStep r.extractor.name extractor_name format df3
          metadataStep r metadata df4
        else .error "timing vectors must match data length"

/-! ### Lemmas about the rendering pipeline -/

theorem zip_self_map {α β} (l : List α) (f : α → β) :
    l.zip (l.map f) = l.map fun a => (a, f a) := by
  induction l with
  | nil => rfl
  | cons a as ih => simp [ih]

theorem shape2_some {d : List (List Val)} {n k : Nat} (h : shape2 d = some (n, k)) :
    d.length = n ∧ ∀ row ∈ d, row.length = k := by
  cases d with
  | nil => simp [shape2] at h
  | cons r rs =>
    simp only [shape2] at h
    by_cases hall : (rs.all fun x => x.length = r.length) = true
    · rw [if_pos hall] at h
      cases h
      refine ⟨by simp, ?_⟩
      intro row hrow
      rcases List.mem_cons.mp hrow with h1 | h1
      · rw [h1]
      · exact of_decide_eq_true (List.all_eq_true.mp hall row h1)
    · rw [if_neg hall] at h
      cases h

theorem WF_baseDF {d : List (List Val)} {features : List String} {n k : Nat}
    (h : shape2 d = some (n, k)) (hf : features.length = k) : (baseDF d features).WF := by
  intro row hrow
  simp only [baseDF] at hrow ⊢
  simp only [List.length_map, hf]
  exact (shape2_some h).2 row hrow

theorem length_rows_baseDF {d : List (List Val)} (features : List String) :
    (baseDF d features).rows.length = d.length := rfl

namespace DF

theorem length_rows_insertCol (df : DF) (c : ColId) (dt : Dtype) {vals : List Val}
    (h : vals.length = df.rows.length) :
    (df.insertCol c dt vals).rows.length = df.rows.length := by
  simp [insertCol, h]

theorem rows_appendConst (df : DF) (c : ColId) (dt : Dtype) (v : Val) :
    (df.appendConst c dt v).rows = df.rows.map fun row => row ++ [v] := by
  simp only [appendConst, appendCol, zip_self_map, List.map_map]
  rfl

theorem cols_appendConst (df : DF) (c : ColId) (dt : Dtype) (v : Val) :
    (df.appendConst c dt v).cols = df.cols ++ [c] := rfl

theorem WF_appendConst {df : DF} (hW : df.WF) (c : ColId) (dt : Dtype) (v : Val) :
    (df.appendConst c dt v).WF := by
  intro row hrow
  rw [rows_appendConst] at hrow
  rcases List.mem_map.mp hrow with ⟨r0, hr0, rfl⟩
  simp only [cols_appendConst, List.length_append, List.length_cons, List.length_nil]
  rw [hW r0 hr0]

theorem colVals_appendConst_self {df : DF} (hW : df.WF) {c : ColId} (h : c ∉ df.cols)
    (dt : Dtype) (v : Val) :
    (df.appendConst c dt v).colVals c = df.rows.map fun _ => v := by
  have hidx : idxOf? (df.cols ++ [c]) c = some df.cols.length := by
    rw [idxOf?_append_right df.cols [c] c h]
    simp [idxOf?]
  simp only [colVals, cell, colIdx, cols_appendConst, rows_appendConst, hidx, List.map_map]
  apply List.map_congr_left
  intro r0 hr0
  show (r0 ++ [v]).getD df.cols.length Val.nan = v
  rw [← hW r0 hr0]
  exact getD_append_right_head r0 v Val.nan

theorem colVals_appendConst_other {df : DF} (hW : df.WF) {c c2 : ColId} (hmem : c2 ∈ df.cols)
    (dt : Dtype) (v : Val) :
    (df.appendConst c dt v).colVals c2 = df.colVals c2 := by
  have hidx : idxOf? (df.cols ++ [c]) c2 = idxOf? df.cols c2 :=
    idxOf?_append_left df.cols [c] c2 hmem
  rcases idxOf?_isSome_of_mem hmem with ⟨i, hi⟩
  have hlt := idxOf?_lt_length df.cols c2 i hi
  simp only [colVals, cell, colIdx, cols_appendConst, rows_appendConst, hidx, hi, List.map_map]
  apply List.map_congr_left
  intro r0 hr0
  show (r0 ++ [v]).getD i Val.nan = r0.getD i Val.nan
  exact getD_append_left r0 [v] i Val.nan (by rw [hW r0 hr0]; exact hlt)

end DF

/-- Synthetic feature names cannot collide with any of the reserved column
names the pipeline introduces. -/
theorem featName_not_reserved (i : Nat) :
    ∀ s ∈ ["object_id", "onset", "order", "duration", "feature", "value", "extractor",
           "stim_name", "class", "filename", "history", "source_file"],
      "feature_" ++ toString (i + 1) ≠ s := by
  intro s hs heq
  have hd := congrArg String.data heq
  rw [String.data_append,
    show ("feature_").data = ['f', 'e', 'a', 't', 'u', 'r', 'e', '_'] from rfl] at hd
  fin_cases hs <;> simp at hd

/-- A reserved flat label is not among the synthesized feature columns. -/
theorem flat_not_mem_featCols {s : String} (k : Nat)
    (h : ∀ i : Nat, "feature_" ++ toString (i + 1) ≠ s) :
    ColId.flat s ∉ (featNames k).map ColId.flat := by
  intro hmem
  rcases List.mem_map.mp hmem with ⟨t, ht, hts⟩
  rcases List.mem_map.mp ht with ⟨i, _, rfl⟩
  exact h i (ColId.flat.inj hts)

/-! ### merge_results (base.py:191-309) -/

/-- pd.concat(dfs, axis=0).reset_index(drop=True) (base.py:260).  In every
merge the per-result long frames share one column list, so concatenation is
row appending; the outer alignment pandas would perform on differing
columns is not modelled and surfaces as an error. -/
def concatDFs : List DF → Except String DF
  | [] => .error "No objects to concatenate"
  | d :: ds =>
    if ds.all fun x => x.cols = d.cols then
      .ok ⟨d.cols,
           ds.foldl (fun acc x =>
             acc.zipWith (fun a b => if a = b then a else Dtype.obj) x.dtypes) d.dtypes,
           (d :: ds).flatMap fun x => x.rows⟩
    else .error "concat with differing columns is not modelled"

/-- base.py:262-263: with object_id="auto", drop the column when it carries
a single distinct value (nunique ignores missing values). -/
def objectIdPrune (object_id : OOpt) (df : DF) : Except String DF :=
  if object_id = OOpt.auto then
    match df.colIdx (ColId.flat "object_id") with
    | some _ =>
      .ok (if ((df.colVals (ColId.flat "object_id")).filter fun v => v ≠ Val.nan).dedup.length = 1
        then df.dropCol (ColId.flat "object_id") else df)
    | none => .error "KeyError: object_id"
  else .ok df

/-- astype(str) of a cell, for the feature-name rewrite. -/
def valToStr : Val → String
  | .str s => s
  | .num q => toString q
  | .nan => "nan"

/-- base.py:265-266: data["feature"] = data["extractor"] + "#" + data["feature"].
Extractor cells are always the extractor-name strings here; adding a
non-string would propagate a missing value in pandas. -/
def rewriteFeatures (df : DF) : DF :=
  match df.colIdx (ColId.flat "extractor"), df.colIdx (ColId.flat "feature") with
  | some ei, some fi =>
    { df with rows := df.rows.map (fun row =>
        match row.getD ei Val.nan with
        | Val.str s => row.set fi (Val.str (s ++ "#" ++ valToStr (row.getD fi Val.nan)))
        | _ => row.set fi Val.nan) }
  | _, _ => df

def nameRewrite (en : ENames) (df : DF) : DF :=
  if en = ENames.prepend ∨ en = ENames.multi then rewriteFeatures df else df

/-- base.py:268-269: the extractor column is dropped unless mode is "column". -/
def extractorDrop (en : ENames) (df : DF) : DF :=
  if en ≠ ENames.column then df.dropCol (ColId.flat "extractor") else df

/-- The fixed candidate index-column set of the wide pivot (base.py:272-274).
The source materializes a Python set intersection whose iteration order is
unspecified; the model fixes one order (only membership is ever relied on). -/
def indCandidates : List ColId :=
  [ColId.flat "stim_name", ColId.flat "onset", ColId.flat "order", ColId.flat "duration",
   ColId.flat "object_id", ColId.flat "class", ColId.flat "filename", ColId.flat "history",
   ColId.flat "source_file"]

def mergeIndCols (df : DF) : List ColId :=
  indCandidates.filter fun c => c ∈ df.cols

/-- The wide-format block of merge_results (base.py:271-290): remember the
index-column dtypes, replace missing index values by the sentinel, pivot
with the type-driven default aggregator, then re-substitute the missing
values and restore the remembered dtypes. -/
def wideStage (aggfunc : Option Agg) (data : DF) : Except String DF :=
  let ind_cols := mergeIndCols data
  let dts := ind_cols.map data.dtypeOfCol
  let filled := data.fillnaCols ind_cols
  let agg :=
    match aggfunc with
    | some a => a
    | none =>
      if filled.dtypeOfCol (ColId.flat "value") = Dtype.numeric then Agg.mean else Agg.first
  let piv := filled.pivotTable ind_cols (ColId.flat "feature") (ColId.flat "value") agg
  let repl := piv.replaceCols ind_cols sentinel Val.nan
  repl.astypeCols (ind_cols.zip dts)

/-- base.py:292-294: with timing="auto", drop the timing columns when the
onset column is entirely missing. -/
def timingPrune (timing : TOpt) (df : DF) : DF :=
  if timing = TOpt.auto ∧ ColId.flat "onset" ∈ df.cols ∧
      ∀ v ∈ df.colVals (ColId.flat "onset"), v = Val.nan then
    ((df.dropCol (ColId.flat "onset")).dropCol (ColId.flat "order")).dropCol
      (ColId.flat "duration")
  else df

/-- base.py:296-300: sort by (onset, order, duration) when an onset column
is present.  (The two-level key of the source's MultiIndex branch is dead
at this point of the pipeline: the "multi" split happens after sorting.) -/
def sortStage (df : DF) : DF :=
  if ColId.flat "onset" ∈ df.cols then
    df.sortRows [ColId.flat "onset", ColId.flat "order", ColId.flat "duration"]
  else df

/-- c.split("#") of a flat label, padded to a two-level label (base.py:307-308). -/
def splitSharp (c : ColId) : ColId :=
  match c with
  | .pair a b => .pair a b
  | .flat s =>
    let l := s.toList
    if l.contains '#' then
      .pair (String.mk (l.takeWhile fun ch => ch ≠ '#'))
        (String.mk ((l.dropWhile fun ch => ch ≠ '#').drop 1))
    else .pair s ""

/-- base.py:302-308: "multi" raises for long format, otherwise the feature
names are split on "#" into a two-level column index. -/
def tailMulti (en : ENames) (format : Fmt) (df : DF) : Except String DF :=
  if en = ENames.multi then
    if format = Fmt.long then
      .error "Invalid extractor_names value multi: when format is long, extractor_names must be one of drop, prepend, or column."
    else .ok { df with cols := df.cols.map splitSharp }
  else .ok df

/-- Normalization of the extractor_names option (base.py:251-254). -/
def normalizeEN : ENames → ENames
  | .tru => ENames.prepend
  | .fls => ENames.drop
  | e => e

/-- The long phase of merge_results (base.py:246-269): per-result long
rendering with "auto" flags normalized to True, concatenation, the
object_id="auto" prune, the feature-name rewrite and the extractor-column
drop. -/
def mergeLong (results : List ExtractorResult) (timing : TOpt) (metadata : Bool)
    (extractor_names0 : ENames) (object_id : OOpt) : Except String DF :=
  let extractor_names := normalizeEN extractor_names0
  let tT := if timing = TOpt.auto then TOpt.tru else timing
  let tO := if object_id = OOpt.auto then OOpt.tru else object_id
  (results.mapM fun r => r.to_df tT metadata Fmt.long true tO) >>= fun dfs =>
  concatDFs dfs >>= fun data0 =>
  objectIdPrune object_id data0 >>= fun data1 =>
  .ok (extractorDrop extractor_names (nameRewrite extractor_names data1))

/-- merge_results (base.py:191-309).  `results` is the already-flattened
depth-first sequence (the source's flatten of nested sequences). -/
def merge_results (results : List ExtractorResult) (format : Fmt) (timing : TOpt)
    (metadata : Bool) (extractor_names0 : ENames) (object_id : OOpt) (aggfunc : Option Agg) :
    Except String DF :=
  mergeLong results timing metadata extractor_names0 object_id >>= fun data3 =>
  (if format = Fmt.wide then wideStage aggfunc data3 else .ok data3) >>= fun data4 =>
  tailMulti (normalizeEN extractor_names0) format (sortStage (timingPrune timing data4))

/-! ### Lemmas about the merge pipeline -/

theorem bindOk {α β : Type} {x : Except String α} {f : α → Except String β} {b : β}
    (h : x >>= f = .ok b) : ∃ a, x = .ok a ∧ f a = .ok b := by
  cases x with
  | error e => exact Except.noConfusion h
  | ok a => exact ⟨a, rfl, h⟩

/-- The sort key used at base.py:296-300. -/
def mergeSortKey (df : DF) (row : List Val) : List Val :=
  [ColId.flat "onset", ColId.flat "order", ColId.flat "duration"].map fun c => df.cell row c

theorem sortStage_sorted (df : DF) (h : ColId.flat "onset" ∈ df.cols) :
    (sortStage df).rows.Pairwise (fun r1 r2 =>
      listLe (mergeSortKey df r1) (mergeSortKey df r2) = true) := by
  unfold sortStage
  rw [if_pos h]
  exact pairwise_isortB
    (fun r1 r2 => listLe (mergeSortKey df r1) (mergeSortKey df r2))
    (fun x y => listLe_total _ _)
    (fun x y z hxy hyz => listLe_trans _ _ _ hxy hyz) df.rows

theorem splitSharp_ne_flat (c : ColId) (s : String) : splitSharp c ≠ ColId.flat s := by
  cases c with
  | pair a b => simp [splitSharp]
  | flat t =>
    simp only [splitSharp]
    split <;> simp

theorem cols_sortStage (df : DF) : (sortStage df).cols = df.cols := by
  unfold sortStage
  split <;> rfl

theorem dtypeOfCol_sortStage (df : DF) (c : ColId) :
    (sortStage df).dtypeOfCol c = df.dtypeOfCol c := by
  unfold sortStage
  split <;> rfl

theorem timingPrune_tru (df : DF) : timingPrune TOpt.tru df = df := by
  simp [timingPrune]

theorem rows_sortStage_mem (df : DF) {row : List Val} :
    row ∈ (sortStage df).rows ↔ row ∈ df.rows := by
  unfold sortStage
  by_cases h : ColId.flat "onset" ∈ df.cols
  · rw [if_pos h]
    exact (perm_isortB _ df.rows).mem_iff
  · rw [if_neg h]

theorem mergeSortKey_congr {a b : DF} (h : a.cols = b.cols) :
    mergeSortKey a = mergeSortKey b := by
  funext row
  simp [mergeSortKey, DF.cell, DF.colIdx, h]

theorem tailMulti_cases {en : ENames} {format : Fmt} {df out : DF}
    (h : tailMulti en format df = .ok out) :
    out = df ∨ out = { df with cols := df.cols.map splitSharp } := by
  unfold tailMulti at h
  by_cases hm : en = ENames.multi
  · rw [if_pos hm] at h
    by_cases hf : format = Fmt.long
    · rw [if_pos hf] at h
      exact Except.noConfusion h
    · rw [if_neg hf] at h
      exact Or.inr (Except.ok.inj h).symm
  · rw [if_neg hm] at h
    exact Or.inl (Except.ok.inj h).symm

/-! ### Structural lemmas about the wide stage -/

theorem mapM_some_id {α : Type} {f : α → Option α} :
    ∀ {l : List α}, (∀ a ∈ l, f a = some a) → l.mapM f = some l := by
  intro l
  induction l with
  | nil => intro _; rfl
  | cons a as ih =>
    intro h
    rw [List.mapM_cons, h a (by simp), ih fun x hx => h x (by simp [hx])]
    rfl

theorem idxOf?_inj {α} [DecidableEq α] {l : List α} {a b : α} {i : Nat}
    (ha : idxOf? l a = some i) (hb : idxOf? l b = some i) : a = b := by
  have h1 := getD_idxOf? l a i a ha
  have h2 := getD_idxOf? l b i a hb
  rw [h1] at h2
  exact h2

theorem mapM_some_length {α β : Type} {f : α → Option β} :
    ∀ {l : List α} {l2 : List β}, l.mapM f = some l2 → l2.length = l.length := by
  intro l
  induction l with
  | nil =>
    intro l2 h
    cases h
    rfl
  | cons a as ih =>
    intro l2 h
    rw [List.mapM_cons] at h
    cases hfa : f a with
    | none => rw [hfa] at h; simp at h
    | some b =>
      rw [hfa] at h
      cases hrest : as.mapM f with
      | none => rw [hrest] at h; simp at h
      | some bs =>
        rw [hrest] at h
        have h2 : b :: bs = l2 := Option.some.inj h
        rw [← h2]
        simp [ih hrest]

theorem mergeIndCols_nodup (df : DF) : (mergeIndCols df).Nodup := by
  have : indCandidates.Nodup := by decide
  exact this.filter _

theorem mem_mergeIndCols {df : DF} {c : ColId} :
    c ∈ mergeIndCols df ↔ c ∈ indCandidates ∧ c ∈ df.cols := by
  simp [mergeIndCols, List.mem_filter]

namespace DF

theorem cols_fillnaCols (df : DF) (cs : List ColId) : (df.fillnaCols cs).cols = df.cols := rfl

theorem dtypes_fillnaCols (df : DF) (cs : List ColId) :
    (df.fillnaCols cs).dtypes = mapIdxFrom
      (fun i dt =>
        if i ∈ cs.filterMap df.colIdx ∧
            df.rows.any (fun row => row.getD i Val.nan = Val.nan) then Dtype.obj else dt)
      0 df.dtypes := rfl

theorem rows_fillnaCols (df : DF) (cs : List ColId) :
    (df.fillnaCols cs).rows = df.rows.map fun row =>
      mapIdxFrom (fun i v => if i ∈ cs.filterMap df.colIdx then fillCell v else v) 0 row := rfl

theorem cols_replaceCols (df : DF) (cs : List ColId) (o n2 : Val) :
    (df.replaceCols cs o n2).cols = df.cols := rfl

theorem dtypes_replaceCols (df : DF) (cs : List ColId) (o n2 : Val) :
    (df.replaceCols cs o n2).dtypes = df.dtypes := rfl

theorem rows_replaceCols (df : DF) (cs : List ColId) (o n2 : Val) :
    (df.replaceCols cs o n2).rows = df.rows.map fun row =>
      mapIdxFrom (fun i v => if i ∈ cs.filterMap df.colIdx then (if v = o then n2 else v)
        else v) 0 row := rfl

theorem cols_pivotTable (df : DF) (ind : List ColId) (ccol vcol : ColId) (agg : Agg) :
    (df.pivotTable ind ccol vcol agg).cols.take ind.length = ind ∧
    ∀ c ∈ (df.pivotTable ind ccol vcol agg).cols.drop ind.length,
      ∃ s, c = ColId.flat s := by
  constructor
  · show (ind ++ _).take ind.length = ind
    simp
  · show ∀ c ∈ (ind ++ _).drop ind.length, _
    simp only [List.drop_left]
    intro c hc
    rcases List.mem_map.mp hc with ⟨f, _, rfl⟩
    exact ⟨_, rfl⟩

theorem WF_pivotTable (df : DF) (ind : List ColId) (ccol vcol : ColId) (agg : Agg) :
    (df.pivotTable ind ccol vcol agg).WF := by
  intro row hrow
  simp only [pivotTable, List.mem_map] at hrow
  rcases hrow with ⟨kk, hkk, rfl⟩
  have hk := (mem_isortB _ _ kk).mp hkk
  rw [List.mem_dedup] at hk
  rcases List.mem_map.mp hk with ⟨row0, _, rfl⟩
  simp [pivotTable]

theorem colIdx_astypeCol {df out : DF} {c : ColId} {dt : Dtype}
    (h : df.astypeCol c dt = .ok out) : out.cols = df.cols ∧ out.rows.length = df.rows.length := by
  unfold astypeCol at h
  cases hidx : df.colIdx c with
  | none =>
    rw [hidx] at h
    cases h
    exact ⟨rfl, rfl⟩
  | some i =>
    rw [hidx] at h
    cases hm : df.rows.mapM fun row => (astypeCell dt (row.getD i Val.nan)).map fun v =>
        row.set i v with
    | none =>
      simp only [hm] at h
      exact Except.noConfusion h
    | some rows2 =>
      simp only [hm, Except.ok.injEq] at h
      rw [← h]
      exact ⟨rfl, mapM_some_length hm⟩

end DF

/-! ### Cell-level lemmas for the wide stage -/

/-- The row transform performed by fillnaCols. -/
def fillRowF (df : DF) (cs : List ColId) (row : List Val) : List Val :=
  mapIdxFrom (fun i v => if i ∈ cs.filterMap df.colIdx then fillCell v else v) 0 row

/-- The row transform performed by replaceCols. -/
def replRowF (df : DF) (cs : List ColId) (o n2 : Val) (row : List Val) : List Val :=
  mapIdxFrom (fun i v => if i ∈ cs.filterMap df.colIdx then (if v = o then n2 else v) else v)
    0 row

theorem rows_fillnaCols_eq (df : DF) (cs : List ColId) :
    (df.fillnaCols cs).rows = df.rows.map (fillRowF df cs) := rfl

theorem rows_replaceCols_eq (df : DF) (cs : List ColId) (o n2 : Val) :
    (df.replaceCols cs o n2).rows = df.rows.map (replRowF df cs o n2) := rfl

theorem fillCell_ne_nan (v : Val) : fillCell v ≠ Val.nan := by
  unfold fillCell
  by_cases h : v = Val.nan <;> simp [h, sentinel]

theorem unfill_fillCell {v : Val} (hv : v ≠ sentinel) :
    (if fillCell v = sentinel then Val.nan else fillCell v) = v := by
  unfold fillCell
  by_cases hn : v = Val.nan
  · simp [hn]
  · simp only [if_neg hn]
    rw [if_neg hv]

theorem idxOf?_mem {α} [DecidableEq α] {l : List α} {a : α} {i : Nat}
    (h : idxOf? l a = some i) : a ∈ l := by
  have hlt := idxOf?_lt_length l a i h
  have hg := getD_idxOf? l a i a h
  rw [← hg, List.getD_eq_getElem l a hlt]
  exact List.getElem_mem hlt

theorem getD_set_self {α} : ∀ (l : List α) (i : Nat) (a d : α), i < l.length →
    (l.set i a).getD i d = a := by
  intro l
  induction l with
  | nil => intro i a d h; simp at h
  | cons x xs ih =>
    intro i a d h
    cases i with
    | zero => rfl
    | succ j =>
      show (xs.set j a).getD j d = a
      exact ih j a d (by simpa [Nat.succ_lt_succ_iff] using h)

theorem getD_set_ne {α} : ∀ (l : List α) {i j : Nat} (a d : α), i ≠ j →
    (l.set i a).getD j d = l.getD j d := by
  intro l
  induction l with
  | nil => intro i j a d h; rfl
  | cons x xs ih =>
    intro i j a d h
    cases i with
    | zero =>
      cases j with
      | zero => exact absurd rfl h
      | succ j2 => rfl
    | succ i2 =>
      cases j with
      | zero => rfl
      | succ j2 =>
        show (xs.set i2 a).getD j2 d = xs.getD j2 d
        exact ih a d (fun he => h (by rw [he]))

namespace DF

theorem WF_fillnaCols {df : DF} (hW : df.WF) (cs : List ColId) : (df.fillnaCols cs).WF := by
  intro row hrow
  rw [rows_fillnaCols_eq] at hrow
  rcases List.mem_map.mp hrow with ⟨r0, hr0, rfl⟩
  show (fillRowF df cs r0).length = df.cols.length
  rw [fillRowF, length_mapIdxFrom]
  exact hW r0 hr0

theorem WF_replaceCols {df : DF} (hW : df.WF) (cs : List ColId) (o n2 : Val) :
    (df.replaceCols cs o n2).WF := by
  intro row hrow
  rw [rows_replaceCols_eq] at hrow
  rcases List.mem_map.mp hrow with ⟨r0, hr0, rfl⟩
  show (replRowF df cs o n2 r0).length = df.cols.length
  rw [replRowF, length_mapIdxFrom]
  exact hW r0 hr0

theorem fillna_cell_mem {df : DF} {cs : List ColId} {c : ColId} {row : List Val}
    (hrow : row ∈ df.rows) (hW : df.WF) (hcc : c ∈ df.cols) (hc : c ∈ cs) :
    (df.fillnaCols cs).cell (fillRowF df cs row) c = fillCell (df.cell row c) := by
  rcases idxOf?_isSome_of_mem hcc with ⟨i, hi⟩
  have hlt : i < df.cols.length := idxOf?_lt_length _ _ _ hi
  have hlen : i < row.length := by rw [hW row hrow]; exact hlt
  have hmem : i ∈ cs.filterMap df.colIdx := List.mem_filterMap.mpr ⟨c, hc, hi⟩
  have hidx2 : (df.fillnaCols cs).colIdx c = some i := hi
  have hcell : (df.fillnaCols cs).cell (fillRowF df cs row) c =
      (fillRowF df cs row).getD i Val.nan := by
    unfold DF.cell
    rw [hidx2]
  rw [hcell, fillRowF, getD_mapIdxFrom _ row 0 i Val.nan hlen]
  simp only [Nat.zero_add, if_pos hmem]
  congr 1
  show row.getD i Val.nan = df.cell row c
  rw [cell, colIdx, hi]

theorem replace_cell_mem {df : DF} {cs : List ColId} {o n2 : Val} {c : ColId}
    {row : List Val} (hlen : row.length = df.cols.length) (hcc : c ∈ df.cols) (hc : c ∈ cs) :
    (df.replaceCols cs o n2).cell (replRowF df cs o n2 row) c =
      (if df.cell row c = o then n2 else df.cell row c) := by
  rcases idxOf?_isSome_of_mem hcc with ⟨i, hi⟩
  have hlt : i < df.cols.length := idxOf?_lt_length _ _ _ hi
  have hlen2 : i < row.length := by rw [hlen]; exact hlt
  have hmem : i ∈ cs.filterMap df.colIdx := List.mem_filterMap.mpr ⟨c, hc, hi⟩
  have hidx2 : (df.replaceCols cs o n2).colIdx c = some i := hi
  have hcell0 : (df.replaceCols cs o n2).cell (replRowF df cs o n2 row) c =
      (replRowF df cs o n2 row).getD i Val.nan := by
    unfold DF.cell
    rw [hidx2]
  rw [hcell0, replRowF, getD_mapIdxFrom _ row 0 i Val.nan hlen2]
  simp only [Nat.zero_add, if_pos hmem]
  have hcell : row.getD i Val.nan = df.cell row c := by rw [cell, colIdx, hi]
  rw [hcell]

theorem cell_congr_cols {a b : DF} (h : a.cols = b.cols) (row : List Val) (c : ColId) :
    a.cell row c = b.cell row c := by
  simp [cell, colIdx, h]

theorem fillna_cell_not_mem {df : DF} {cs : List ColId} {c : ColId} {row : List Val}
    (hrow : row ∈ df.rows) (hW : df.WF) (hnc : c ∉ cs) :
    (df.fillnaCols cs).cell (fillRowF df cs row) c = df.cell row c := by
  cases hidx : df.colIdx c with
  | none =>
    have h1 : (df.fillnaCols cs).cell (fillRowF df cs row) c = Val.nan := by
      unfold DF.cell
      rw [show (df.fillnaCols cs).colIdx c = none from hidx]
    have h2 : df.cell row c = Val.nan := by
      unfold DF.cell
      rw [hidx]
    rw [h1, h2]
  | some i =>
    have hlt : i < df.cols.length := idxOf?_lt_length _ _ _ hidx
    have hlen : i < row.length := by rw [hW row hrow]; exact hlt
    have hni : i ∉ cs.filterMap df.colIdx := by
      intro hmem
      rcases List.mem_filterMap.mp hmem with ⟨c2, hc2, hidx2⟩
      exact hnc ((idxOf?_inj hidx2 hidx) ▸ hc2)
    have hcell : (df.fillnaCols cs).cell (fillRowF df cs row) c =
        (fillRowF df cs row).getD i Val.nan := by
      unfold DF.cell
      rw [show (df.fillnaCols cs).colIdx c = some i from hidx]
    rw [hcell, fillRowF, getD_mapIdxFrom _ row 0 i Val.nan hlen]
    simp only [Nat.zero_add, if_neg hni]
    unfold DF.cell
    rw [hidx]

theorem cols_pivotTable_eq (df : DF) (ind : List ColId) (ccol vcol : ColId) (agg : Agg) :
    (df.pivotTable ind ccol vcol agg).cols = ind ++
      ((isortB Val.le ((df.rows.filter fun row => (ind.map fun c => df.cell row c).all
        fun v => v ≠ Val.nan).map fun row => df.cell row ccol).dedup).map fun f =>
        ColId.flat (match f with | .str s => s | .num q => toString q | .nan => "nan")) := rfl

end DF

theorem optVal_isNumericOrNan (o : Option ℚ) : (optVal o).isNumericOrNan = true := by
  cases o <;> rfl

theorem optVal_ne_sentinel (o : Option ℚ) : optVal o ≠ sentinel := by
  cases o <;> simp [optVal, sentinel]

/-! ### Lemmas about pivotTable -/

namespace DF

theorem pivot_kept_eq {df : DF} {ind : List ColId}
    (hall : ∀ row ∈ df.rows, ∀ c ∈ ind, df.cell row c ≠ Val.nan) :
    (df.rows.filter fun row => (ind.map fun c => df.cell row c).all fun v => v ≠ Val.nan) =
      df.rows := by
  apply List.filter_eq_self.mpr
  intro r2 hr2
  simp only [List.all_eq_true, List.mem_map, decide_eq_true_eq]
  rintro v ⟨c, hc, rfl⟩
  exact hall r2 hr2 c hc

theorem pivot_colIdx {df : DF} {ind : List ColId} {ccol vcol : ColId} {agg : Agg}
    {c : ColId} {pos : Nat} (hpos : idxOf? ind c = some pos) :
    (df.pivotTable ind ccol vcol agg).colIdx c = some pos := by
  have hc : c ∈ ind := idxOf?_mem hpos
  show idxOf? (df.pivotTable ind ccol vcol agg).cols c = some pos
  rw [show (df.pivotTable ind ccol vcol agg).cols = ind ++
    ((isortB Val.le ((df.rows.filter fun row =>
        (ind.map fun c2 => df.cell row c2).all fun v => v ≠ Val.nan).map fun row =>
        df.cell row ccol).dedup).map fun f => ColId.flat
        (match f with | .str s => s | .num q => toString q | .nan => "nan")) from rfl]
  rw [idxOf?_append_left _ _ _ hc]
  exact hpos

theorem keyOf_getD {df : DF} {ind : List ColId} {row : List Val} {c : ColId} {pos : Nat}
    (hpos : idxOf? ind c = some pos) :
    (ind.map fun c2 => df.cell row c2).getD pos Val.nan = df.cell row c := by
  have hlt := idxOf?_lt_length ind c pos hpos
  rw [List.getD_eq_getElem _ _ (by simpa using hlt), List.getElem_map]
  congr 1
  have hg := getD_idxOf? ind c pos c hpos
  rw [← List.getD_eq_getElem ind c hlt]
  exact hg

theorem pivot_cell_of_key {df : DF} {ind : List ColId} {ccol vcol : ColId} {agg : Agg}
    {c : ColId} {pos : Nat} (hpos : idxOf? ind c = some pos)
    (kk rest : List Val) (hkk : kk.length = ind.length) :
    (df.pivotTable ind ccol vcol agg).cell (kk ++ rest) c = kk.getD pos Val.nan := by
  have hlt := idxOf?_lt_length ind c pos hpos
  show (match (df.pivotTable ind ccol vcol agg).colIdx c with
    | some j => (kk ++ rest).getD j Val.nan
    | none => Val.nan) = kk.getD pos Val.nan
  rw [pivot_colIdx hpos]
  exact getD_append_left kk rest pos Val.nan (by rw [hkk]; exact hlt)

/-- Every row of the pivot output takes its index cells from some input row
that survived the missing-key filter. -/
theorem pivot_rows_from {df : DF} {ind : List ColId} {ccol vcol : ColId} {agg : Agg}
    {prow : List Val} (hprow : prow ∈ (df.pivotTable ind ccol vcol agg).rows) :
    ∃ row0 ∈ df.rows, ∀ c ∈ ind, (df.pivotTable ind ccol vcol agg).cell prow c =
      df.cell row0 c := by
  simp only [pivotTable, List.mem_map] at hprow
  rcases hprow with ⟨kk, hkk, rfl⟩
  have hk := (mem_isortB _ _ kk).mp hkk
  rw [List.mem_dedup] at hk
  rcases List.mem_map.mp hk with ⟨row0, hrow0, rfl⟩
  refine ⟨row0, List.mem_of_mem_filter hrow0, ?_⟩
  intro c hc
  rcases idxOf?_isSome_of_mem hc with ⟨pos, hpos⟩
  rw [pivot_cell_of_key hpos _ _ (by simp)]
  exact keyOf_getD hpos

/-- Every input row that survives the filter has its key represented among
the pivot output rows, with identical index cells. -/
theorem pivot_row_surj {df : DF} {ind : List ColId} {ccol vcol : ColId} {agg : Agg}
    (hall : ∀ row ∈ df.rows, ∀ c ∈ ind, df.cell row c ≠ Val.nan)
    {row : List Val} (hrow : row ∈ df.rows) :
    ∃ prow ∈ (df.pivotTable ind ccol vcol agg).rows,
      ∀ c ∈ ind, (df.pivotTable ind ccol vcol agg).cell prow c = df.cell row c := by
  have hkept := pivot_kept_eq hall
  refine ⟨(ind.map fun c => df.cell row c) ++
    ((isortB Val.le ((df.rows.filter fun r2 => (ind.map fun c2 => df.cell r2 c2).all
        fun v => v ≠ Val.nan).map fun r2 => df.cell r2 ccol).dedup).map fun f =>
      aggApply agg (((df.rows.filter fun r2 => (ind.map fun c2 => df.cell r2 c2).all
        fun v => v ≠ Val.nan).filter fun r2 =>
          (ind.map fun c2 => df.cell r2 c2) = (ind.map fun c2 => df.cell row c2) ∧
          df.cell r2 ccol = f).map fun r2 => df.cell r2 vcol)), ?_, ?_⟩
  · simp only [pivotTable, List.mem_map]
    refine ⟨ind.map fun c => df.cell row c, ?_, rfl⟩
    rw [mem_isortB, List.mem_dedup]
    apply List.mem_map_of_mem
    rw [hkept]
    exact hrow
  · intro c hc
    rcases idxOf?_isSome_of_mem hc with ⟨pos, hpos⟩
    rw [pivot_cell_of_key hpos _ _ (by simp)]
    exact keyOf_getD hpos

end DF

namespace DF

/-- When every requested conversion is the identity on the actual cells,
astype succeeds, leaves columns and rows unchanged, and installs the
requested dtypes. -/
theorem astypeCols_id :
    ∀ (l : List (ColId × Dtype)) (df : DF),
      df.dtypes.length = df.cols.length →
      (∀ cd ∈ l, cd.1 ∈ df.cols) →
      (∀ cd ∈ l, ∀ row ∈ df.rows,
        astypeCell cd.2 (df.cell row cd.1) = some (df.cell row cd.1)) →
      ∃ out, df.astypeCols l = .ok out ∧ out.cols = df.cols ∧ out.rows = df.rows ∧
        out.dtypes.length = out.cols.length ∧
        (∀ c, c ∉ l.map Prod.fst → out.dtypeOfCol c = df.dtypeOfCol c) ∧
        ((l.map Prod.fst).Nodup → ∀ cd ∈ l, out.dtypeOfCol cd.1 = cd.2) := by
  intro l
  induction l with
  | nil =>
    intro df hdl hmem hid
    exact ⟨df, rfl, rfl, rfl, hdl, fun c _ => rfl, fun _ cd hcd => absurd hcd (by simp)⟩
  | cons cd rest ih =>
    intro df hdl hmem hid
    obtain ⟨i, hi⟩ := idxOf?_isSome_of_mem (hmem cd (by simp))
    have hi2 : df.colIdx cd.1 = some i := hi
    have hilt : i < df.cols.length := idxOf?_lt_length _ _ _ hi
    have hcellrow : ∀ row : List Val, df.cell row cd.1 = row.getD i Val.nan := by
      intro row
      show (match df.colIdx cd.1 with
        | some j => row.getD j Val.nan
        | none => Val.nan) = _
      rw [hi2]
    have hstep : df.astypeCol cd.1 cd.2 = .ok ⟨df.cols, df.dtypes.set i cd.2, df.rows⟩ := by
      unfold DF.astypeCol
      rw [hi2]
      have hmapM : (df.rows.mapM fun row => (astypeCell cd.2 (row.getD i Val.nan)).map
          fun v => row.set i v) = some df.rows := by
        apply mapM_some_id
        intro row hrow
        have h1 := hid cd (by simp) row hrow
        rw [hcellrow row] at h1
        rw [h1, Option.map_some', set_getD_self row i Val.nan]
      simp only [hmapM]
    obtain ⟨out, hok, hcols, hrows, hlen, hpres, hset⟩ :=
      ih ⟨df.cols, df.dtypes.set i cd.2, df.rows⟩
        (by simpa using hdl)
        (fun cd2 h2 => hmem cd2 (by simp [h2]))
        (fun cd2 h2 row hrow => hid cd2 (by simp [h2]) row hrow)
    have hdf1 : ∀ c : ColId,
        (⟨df.cols, df.dtypes.set i cd.2, df.rows⟩ : DF).dtypeOfCol c =
          (match df.colIdx c with
           | some j => (df.dtypes.set i cd.2).getD j Dtype.obj
           | none => Dtype.obj) := fun c => rfl
    refine ⟨out, ?_, hcols, hrows, hlen, ?_, ?_⟩
    · show (df.astypeCol cd.1 cd.2 >>= fun x => x.astypeCols rest) = .ok out
      rw [hstep]
      exact hok
    · intro c hc
      have hc1 : c ≠ cd.1 := by
        intro he
        exact hc (by simp [he])
      have hc2 : c ∉ rest.map Prod.fst := by
        intro he
        exact hc (by simp [he])
      rw [hpres c hc2, hdf1 c]
      cases hj : df.colIdx c with
      | none => simp [DF.dtypeOfCol, DF.colIdx] at hj ⊢; rw [hj]
      | some j =>
        have hij : i ≠ j := fun he => hc1 (idxOf?_inj hi (he ▸ hj)).symm
        show (df.dtypes.set i cd.2).getD j Dtype.obj = df.dtypeOfCol c
        rw [getD_set_ne df.dtypes cd.2 Dtype.obj hij]
        show df.dtypes.getD j Dtype.obj = df.dtypeOfCol c
        unfold DF.dtypeOfCol
        rw [hj]
    · intro hnd cd2 hcd2
      rcases List.mem_cons.mp hcd2 with h2 | h2
      · rw [h2]
        have hnotin : cd.1 ∉ rest.map Prod.fst := by
          have := hnd
          simp only [List.map_cons, List.nodup_cons] at this
          exact this.1
        rw [hpres cd.1 hnotin, hdf1 cd.1, hi2]
        exact getD_set_self df.dtypes i cd.2 Dtype.obj (by rw [hdl]; exact hilt)
      · have hnd2 : (rest.map Prod.fst).Nodup := by
          simp only [List.map_cons, List.nodup_cons] at hnd
          exact hnd.2
        exact hset hnd2 cd2 h2

end DF

/-- The aggregator the wide stage ends up using (base.py:283-284). -/
def wideAggOf (aggfunc : Option Agg) (data : DF) : Agg :=
  match aggfunc with
  | some a => a
  | none =>
    if (data.fillnaCols (mergeIndCols data)).dtypeOfCol (ColId.flat "value") = Dtype.numeric
    then Agg.mean else Agg.first

/-- The pivot the wide stage builds after the sentinel substitution. -/
def widePivOf (aggfunc : Option Agg) (data : DF) : DF :=
  (data.fillnaCols (mergeIndCols data)).pivotTable (mergeIndCols data)
    (ColId.flat "feature") (ColId.flat "value") (wideAggOf aggfunc data)

theorem astypeCell_of_dtype (dt : Dtype) (v : Val)
    (h : dt = Dtype.numeric → v.isNumericOrNan = true) : astypeCell dt v = some v := by
  cases dt with
  | obj => rfl
  | numeric =>
    cases v with
    | num q => rfl
    | nan => rfl
    | str s => exact absurd (h rfl) (by simp [Val.isNumericOrNan])

theorem mem_cols_pivot {df : DF} {ind : List ColId} {ccol vcol : ColId} {agg : Agg}
    {c : ColId} (h : c ∈ ind) : c ∈ (df.pivotTable ind ccol vcol agg).cols := by
  show c ∈ ind ++ _
  exact List.mem_append_left _ h

theorem dtypes_length_pivotTable (df : DF) (ind : List ColId) (ccol vcol : ColId)
    (agg : Agg) : (df.pivotTable ind ccol vcol agg).dtypes.length =
      (df.pivotTable ind ccol vcol agg).cols.length := by
  simp [DF.pivotTable]

/-- The wide stage of merge_results (base.py:271-290): it succeeds, its
output keeps the pivot columns, the remembered index dtypes are restored
exactly, and every input row's grouping key — missing values included — is
present in the output with the original cells. -/
theorem wideStage_spec (data : DF) (aggfunc : Option Agg)
    (hW : data.WF)
    (hDt : ∀ c ∈ mergeIndCols data, data.dtypeOfCol c = Dtype.numeric →
      ∀ row ∈ data.rows, (data.cell row c).isNumericOrNan = true)
    (hSent : ∀ c ∈ mergeIndCols data, ∀ row ∈ data.rows, data.cell row c ≠ sentinel) :
    ∃ out, wideStage aggfunc data = .ok out ∧
      out.cols = (widePivOf aggfunc data).cols ∧
      (∀ c ∈ mergeIndCols data, out.dtypeOfCol c = data.dtypeOfCol c) ∧
      ∀ row ∈ data.rows, ∃ prow ∈ out.rows,
        ∀ c ∈ mergeIndCols data, out.cell prow c = data.cell row c := by
  have hindsub : ∀ c ∈ mergeIndCols data, c ∈ data.cols :=
    fun c hc => (mem_mergeIndCols.mp hc).2
  have hfillcell : ∀ row ∈ data.rows, ∀ c ∈ mergeIndCols data,
      (data.fillnaCols (mergeIndCols data)).cell (fillRowF data (mergeIndCols data) row) c =
        fillCell (data.cell row c) :=
    fun row hrow c hc => DF.fillna_cell_mem hrow hW (hindsub c hc) hc
  have hallfill : ∀ row2 ∈ (data.fillnaCols (mergeIndCols data)).rows,
      ∀ c ∈ mergeIndCols data,
        (data.fillnaCols (mergeIndCols data)).cell row2 c ≠ Val.nan := by
    intro row2 hrow2 c hc
    rw [rows_fillnaCols_eq] at hrow2
    rcases List.mem_map.mp hrow2 with ⟨r0, hr0, rfl⟩
    rw [hfillcell r0 hr0 c hc]
    exact fillCell_ne_nan _
  have hzip : (mergeIndCols data).zip ((mergeIndCols data).map data.dtypeOfCol) =
      (mergeIndCols data).map fun c => (c, data.dtypeOfCol c) := zip_self_map _ _
  have hzipfst : (((mergeIndCols data).zip
      ((mergeIndCols data).map data.dtypeOfCol)).map Prod.fst) = mergeIndCols data := by
    rw [hzip, List.map_map]
    rw [show (Prod.fst ∘ fun c : ColId => (c, data.dtypeOfCol c)) = id from rfl, List.map_id]
  -- the replace output and the facts needed about its cells
  have hWpiv : (widePivOf aggfunc data).WF :=
    DF.WF_pivotTable (data.fillnaCols (mergeIndCols data)) (mergeIndCols data)
      (ColId.flat "feature") (ColId.flat "value") (wideAggOf aggfunc data)
  have hreplcell : ∀ row2 ∈ ((widePivOf aggfunc data).replaceCols (mergeIndCols data)
      sentinel Val.nan).rows, ∀ c ∈ mergeIndCols data,
      ∃ r1 ∈ data.rows,
        ((widePivOf aggfunc data).replaceCols (mergeIndCols data) sentinel Val.nan).cell
          row2 c = data.cell r1 c := by
    intro row2 hrow2 c hc
    rw [rows_replaceCols_eq] at hrow2
    rcases List.mem_map.mp hrow2 with ⟨prow, hprow, rfl⟩
    rcases DF.pivot_rows_from hprow with ⟨row0, hrow0, hcell0⟩
    rw [rows_fillnaCols_eq] at hrow0
    rcases List.mem_map.mp hrow0 with ⟨r1, hr1, rfl⟩
    have hcell0w : ∀ c2 ∈ mergeIndCols data, (widePivOf aggfunc data).cell prow c2 =
        (data.fillnaCols (mergeIndCols data)).cell (fillRowF data (mergeIndCols data) r1) c2 :=
      hcell0
    refine ⟨r1, hr1, ?_⟩
    rw [DF.replace_cell_mem (hWpiv prow hprow) (mem_cols_pivot hc) hc]
    rw [hcell0w c hc, hfillcell r1 hr1 c hc]
    exact unfill_fillCell (hSent c hc r1 hr1)
  obtain ⟨out, hok, hcols, hrows, hlen, hpres, hset⟩ :=
    DF.astypeCols_id ((mergeIndCols data).zip ((mergeIndCols data).map data.dtypeOfCol))
      ((widePivOf aggfunc data).replaceCols (mergeIndCols data) sentinel Val.nan)
      (by
        show (widePivOf aggfunc data).dtypes.length =
          (widePivOf aggfunc data).cols.length
        exact dtypes_length_pivotTable _ _ _ _ _)
      (by
        intro cd hcd
        rw [hzip] at hcd
        rcases List.mem_map.mp hcd with ⟨c, hc, rfl⟩
        show c ∈ (widePivOf aggfunc data).cols
        exact mem_cols_pivot hc)
      (by
        intro cd hcd row2 hrow2
        rw [hzip] at hcd
        rcases List.mem_map.mp hcd with ⟨c, hc, rfl⟩
        rcases hreplcell row2 hrow2 c hc with ⟨r1, hr1, hcv⟩
        rw [hcv]
        exact astypeCell_of_dtype _ _ fun hnum => hDt c hc hnum r1 hr1)
  refine ⟨out, ?_, ?_, ?_, ?_⟩
  · exact hok
  · exact hcols
  · intro c hc
    have hcd : (c, data.dtypeOfCol c) ∈
        (mergeIndCols data).zip ((mergeIndCols data).map data.dtypeOfCol) := by
      rw [hzip]
      exact List.mem_map_of_mem _ hc
    have := hset (by rw [hzipfst]; exact mergeIndCols_nodup data) _ hcd
    exact this
  · intro row hrow
    have hfrow : fillRowF data (mergeIndCols data) row ∈
        (data.fillnaCols (mergeIndCols data)).rows := by
      rw [rows_fillnaCols_eq]
      exact List.mem_map_of_mem _ hrow
    obtain ⟨prow, hprow, hpcell⟩ := DF.pivot_row_surj hallfill hfrow
    have hprow2 : prow ∈ (widePivOf aggfunc data).rows := hprow
    have hpcellw : ∀ c2 ∈ mergeIndCols data, (widePivOf aggfunc data).cell prow c2 =
        (data.fillnaCols (mergeIndCols data)).cell (fillRowF data (mergeIndCols data) row) c2 :=
      hpcell
    refine ⟨replRowF (widePivOf aggfunc data) (mergeIndCols data) sentinel Val.nan prow,
      ?_, ?_⟩
    · rw [hrows, rows_replaceCols_eq]
      exact List.mem_map_of_mem _ hprow2
    · intro c hc
      rw [DF.cell_congr_cols hcols]
      rw [DF.replace_cell_mem (hWpiv prow hprow2) (mem_cols_pivot hc) hc]
      rw [hpcellw c hc, hfillcell row hrow c hc]
      exact unfill_fillCell (hSent c hc row hrow)

/-! ### Concrete fixtures used by the claim theorems and witnesses -/

def stim0 : Stim :=
  { name := some "stim", filename := some "stim.png", className := "ImageStim",
    onset := none, duration := none, order := none, history := none }

def hist0 : History := { source_file := "stim.png" }

def extrA : Extractor := { name := "ExtractorA" }

def extrB : Extractor := { name := "ExtractorB" }

/-- A simple one-row Result with one feature. -/
def rEx : ExtractorResult :=
  { data := some [[Val.num 1]], stim := stim0, extractor := extrA, features := some ["f"],
    raw := none, onsets := [some 0], durations := [some 1], orders := [none],
    history := some hist0 }

/-! ### Claims -/

/-- C9: constructing a Result with both the computed values array and the raw
payload absent raises the construction error; when at least one of the two is
present, construction succeeds without this error. -/
theorem claim_C9_construction_error
    (data : Option (List (List Val))) (stim : Stim) (extractor : Extractor)
    (features : Option (List String)) (onsets durations orders : Option (List (Option ℚ)))
    (raw : Option Unit) :
    (data = none ∧ raw = none →
      mkExtractorResult data stim extractor features onsets durations orders raw =
        .error "At least one of data and raw must be a value other than None.") ∧
    ((data ≠ none ∨ raw ≠ none) →
      ∃ res, mkExtractorResult data stim extractor features onsets durations orders raw =
        .ok res) := by
  constructor
  · rintro ⟨h1, h2⟩
    simp [mkExtractorResult, h1, h2]
  · intro h
    have hcond : ¬(data = none ∧ raw = none) := by tauto
    simp only [mkExtractorResult, if_neg hcond]
    exact ⟨_, rfl⟩

/-- Witness for C9: the error fires with both inputs absent, and construction
succeeds with data present. -/
theorem claim_C9_construction_error_witness :
    (mkExtractorResult none stim0 extrA none none none none none =
      .error "At least one of data and raw must be a value other than None.") ∧
    ∃ res, mkExtractorResult (some [[Val.num 1]]) stim0 extrA none none none none none =
      .ok res := by
  constructor
  · exact (claim_C9_construction_error none stim0 extrA none none none none none).1 ⟨rfl, rfl⟩
  · exact (claim_C9_construction_error (some [[Val.num 1]]) stim0 extrA none none none
      none none).2 (Or.inl (by simp))

/-- C3 (code bug): merge_results raises the configuration error for
extractor_names="multi" with long format, but extractor_names="column" with
wide format — which the spec and the source docstring (base.py:219-221) both
say raises — returns a table without raising. -/
theorem claim_C3_column_wide_returns_table :
    merge_results [rEx] Fmt.long TOpt.tru true ENames.multi OOpt.tru none =
      .error "Invalid extractor_names value multi: when format is long, extractor_names must be one of drop, prepend, or column." ∧
    ∃ df, merge_results [rEx] Fmt.wide TOpt.tru true ENames.column OOpt.tru none = .ok df := by
  constructor
  · rfl
  · exact ⟨_, rfl⟩

/-- C7: a Result holding an (n, k) value matrix with no explicit feature
names renders, on the default path, a table whose feature columns are exactly
feature_1 .. feature_k. -/
theorem claim_C7_synthesized_feature_names (r : ExtractorResult) (d : List (List Val))
    (n k : Nat) (h1 : r.data = some d) (h2 : shape2 d = some (n, k)) (h3 : r.features = none)
    (h4 : r.onsets.length = n) (h5 : r.durations.length = n) (h6 : r.orders.length = n) :
    ∃ out, r.to_df TOpt.fls false Fmt.wide false OOpt.fls = .ok out ∧
      out.cols = (List.range k).map (fun i => ColId.flat ("feature_" ++ toString (i + 1))) ∧
      out.cols.length = k := by
  refine ⟨baseDF d (featNames k), ?_, ?_, ?_⟩
  · simp [ExtractorResult.to_df, h1, h2, h3, h4, h5, h6, objectIdStep, timingStep,
      extractorNameStep, metadataStep]
  · simp [baseDF, featNames, List.map_map]
  · simp [baseDF, featNames]

/-- A 1-by-2 Result without feature names. -/
def rNoNames : ExtractorResult :=
  { data := some [[Val.num 1, Val.num 2]], stim := stim0, extractor := extrA,
    features := none, raw := none, onsets := [none], durations := [none],
    orders := [none], history := none }

/-- Witness for C7 at a concrete 1-by-2 Result. -/
theorem claim_C7_synthesized_feature_names_witness :
    ∃ out, rNoNames.to_df TOpt.fls false Fmt.wide false OOpt.fls = .ok out ∧
      out.cols = (List.range 2).map (fun i => ColId.flat ("feature_" ++ toString (i + 1))) ∧
      out.cols.length = 2 :=
  claim_C7_synthesized_feature_names rNoNames [[Val.num 1, Val.num 2]] 1 2 rfl rfl rfl rfl
    rfl rfl

/-- C8: with timing="auto", the leading timing columns appear iff some
duration or order is finite; with timing=True they always appear, and
rendering succeeds with missing timing replaced by nan placeholders. -/
theorem claim_C8_timing_columns (r : ExtractorResult) (d : List (List Val)) (n k : Nat)
    (h1 : r.data = some d) (h2 : shape2 d = some (n, k)) (h3 : r.features = none)
    (h4 : r.onsets.length = n) (h5 : r.durations.length = n) (h6 : r.orders.length = n) :
    (∃ out, r.to_df TOpt.auto false Fmt.wide false OOpt.fls = .ok out ∧
      (ColId.flat "onset" ∈ out.cols ↔
        ((∃ x ∈ r.durations, x ≠ none) ∨ ∃ x ∈ r.orders, x ≠ none))) ∧
    ∃ out, r.to_df TOpt.tru false Fmt.wide false OOpt.fls = .ok out ∧
      ColId.flat "onset" ∈ out.cols ∧
      out.colVals (ColId.flat "onset") = r.onsets.map optVal ∧
      out.colVals (ColId.flat "duration") = r.durations.map optVal := by
  have hn : d.length = n := (shape2_some h2).1
  have hrows0 : (baseDF d (featNames k)).rows.length = n := by
    rw [length_rows_baseDF, hn]
  have hld : (r.durations.map optVal).length = (baseDF d (featNames k)).rows.length := by
    simp [hrows0, h5]
  have hr1 : ((baseDF d (featNames k)).insertCol (ColId.flat "duration") Dtype.numeric
      (r.durations.map optVal)).rows.length = n := by
    rw [DF.length_rows_insertCol _ _ _ hld, hrows0]
  have hlo : (r.orders.map optVal).length =
      ((baseDF d (featNames k)).insertCol (ColId.flat "duration") Dtype.numeric
        (r.durations.map optVal)).rows.length := by
    simp [hr1, h6]
  have hr2 : (((baseDF d (featNames k)).insertCol (ColId.flat "duration") Dtype.numeric
      (r.durations.map optVal)).insertCol (ColId.flat "order") Dtype.numeric
      (r.orders.map optVal)).rows.length = n := by
    rw [DF.length_rows_insertCol _ _ _ hlo, hr1]
  have hlon : (r.onsets.map optVal).length =
      (((baseDF d (featNames k)).insertCol (ColId.flat "duration") Dtype.numeric
        (r.durations.map optVal)).insertCol (ColId.flat "order") Dtype.numeric
        (r.orders.map optVal)).rows.length := by
    simp [hr2, h4]
  constructor
  · by_cases hfin : ((∃ x ∈ r.durations, x ≠ none) ∨ ∃ x ∈ r.orders, x ≠ none)
    · refine ⟨(((baseDF d (featNames k)).insertCol (ColId.flat "duration") Dtype.numeric
          (r.durations.map optVal)).insertCol (ColId.flat "order") Dtype.numeric
          (r.orders.map optVal)).insertCol (ColId.flat "onset") Dtype.numeric
          (r.onsets.map optVal), ?_, ?_⟩
      · simp [ExtractorResult.to_df, h1, h2, h3, h4, h5, h6, objectIdStep, timingStep,
          extractorNameStep, metadataStep, hfin]
      · simp [DF.insertCol, hfin]
    · refine ⟨baseDF d (featNames k), ?_, ?_⟩
      · simp [ExtractorResult.to_df, h1, h2, h3, h4, h5, h6, objectIdStep, timingStep,
          extractorNameStep, metadataStep, hfin]
      · have hmem : ColId.flat "onset" ∉ (baseDF d (featNames k)).cols := by
          simpa [baseDF] using
            flat_not_mem_featCols k (fun i => featName_not_reserved i _ (by simp))
        simp [hmem, hfin]
  · refine ⟨(((baseDF d (featNames k)).insertCol (ColId.flat "duration") Dtype.numeric
        (r.durations.map optVal)).insertCol (ColId.flat "order") Dtype.numeric
        (r.orders.map optVal)).insertCol (ColId.flat "onset") Dtype.numeric
        (r.onsets.map optVal), ?_, ?_, ?_, ?_⟩
    · simp [ExtractorResult.to_df, h1, h2, h3, h4, h5, h6, objectIdStep, timingStep,
        extractorNameStep, metadataStep]
    · simp [DF.insertCol]
    · exact DF.colVals_insertCol_self _ _ hlon
    · rw [DF.colVals_insertCol_other _ (by decide) hlon,
        DF.colVals_insertCol_other _ (by decide) hlo]
      exact DF.colVals_insertCol_self _ _ hld

/-- Witness for C8 at a concrete Result with entirely missing timing. -/
theorem claim_C8_timing_columns_witness :
    (∃ out, rNoNames.to_df TOpt.auto false Fmt.wide false OOpt.fls = .ok out ∧
      (ColId.flat "onset" ∈ out.cols ↔
        ((∃ x ∈ rNoNames.durations, x ≠ none) ∨ ∃ x ∈ rNoNames.orders, x ≠ none))) ∧
    ∃ out, rNoNames.to_df TOpt.tru false Fmt.wide false OOpt.fls = .ok out ∧
      ColId.flat "onset" ∈ out.cols ∧
      out.colVals (ColId.flat "onset") = rNoNames.onsets.map optVal ∧
      out.colVals (ColId.flat "duration") = rNoNames.durations.map optVal :=
  claim_C8_timing_columns rNoNames [[Val.num 1, Val.num 2]] 1 2 rfl rfl rfl rfl rfl rfl

/-- With the result history set, the metadata step appends its five columns
and every cell of the `history` column is the stringified stim history
(empty when the stim has none). -/
theorem metadataStep_history_col (r : ExtractorResult) (hst : History)
    (hh : r.history = some hst) (df : DF) (hW : df.WF)
    (hnm : ColId.flat "history" ∉ df.cols) :
    metadataStep r true df = .ok
      (((((df.appendConst (ColId.flat "stim_name") Dtype.obj (optStrVal r.stim.name)).appendConst
        (ColId.flat "class") Dtype.obj (Val.str r.stim.className)).appendConst
        (ColId.flat "filename") Dtype.obj (optStrVal r.stim.filename)).appendConst
        (ColId.flat "history") Dtype.obj (Val.str (r.stim.history.getD ""))).appendConst
        (ColId.flat "source_file") Dtype.obj (Val.str hst.source_file)) ∧
    ∀ v ∈ (((((df.appendConst (ColId.flat "stim_name") Dtype.obj
        (optStrVal r.stim.name)).appendConst
        (ColId.flat "class") Dtype.obj (Val.str r.stim.className)).appendConst
        (ColId.flat "filename") Dtype.obj (optStrVal r.stim.filename)).appendConst
        (ColId.flat "history") Dtype.obj (Val.str (r.stim.history.getD ""))).appendConst
        (ColId.flat "source_file") Dtype.obj (Val.str hst.source_file)).colVals
        (ColId.flat "history"), v = Val.str (r.stim.history.getD "") := by
  constructor
  · simp [metadataStep, hh]
  · have hW3 := DF.WF_appendConst hW (ColId.flat "stim_name") Dtype.obj
      (optStrVal r.stim.name)
    have hW4 := DF.WF_appendConst hW3 (ColId.flat "class") Dtype.obj
      (Val.str r.stim.className)
    have hW5 := DF.WF_appendConst hW4 (ColId.flat "filename") Dtype.obj
      (optStrVal r.stim.filename)
    have hW6 := DF.WF_appendConst hW5 (ColId.flat "history") Dtype.obj
      (Val.str (r.stim.history.getD ""))
    have hn3 : ColId.flat "history" ∉
        (((df.appendConst (ColId.flat "stim_name") Dtype.obj
          (optStrVal r.stim.name)).appendConst
          (ColId.flat "class") Dtype.obj (Val.str r.stim.className)).appendConst
          (ColId.flat "filename") Dtype.obj (optStrVal r.stim.filename)).cols := by
      simp only [DF.cols_appendConst, List.mem_append, List.mem_singleton]
      push_neg
      exact ⟨⟨⟨hnm, by decide⟩, by decide⟩, by decide⟩
    have hm4 : ColId.flat "history" ∈
        ((((df.appendConst (ColId.flat "stim_name") Dtype.obj
          (optStrVal r.stim.name)).appendConst
          (ColId.flat "class") Dtype.obj (Val.str r.stim.className)).appendConst
          (ColId.flat "filename") Dtype.obj (optStrVal r.stim.filename)).appendConst
          (ColId.flat "history") Dtype.obj (Val.str (r.stim.history.getD ""))).cols := by
      simp [DF.cols_appendConst]
    rw [DF.colVals_appendConst_other hW6 hm4, DF.colVals_appendConst_self hW5 hn3]
    intro v hv
    rcases List.mem_map.mp hv with ⟨_, _, rfl⟩
    rfl

/-- C10: rendering with metadata=True fails when the result's provenance
history was never set, because source_file dereferences it; the stimulus
history, by contrast, falls back to the empty string when absent. -/
theorem claim_C10_metadata_history_error (r : ExtractorResult) (d : List (List Val))
    (n k : Nat) (timing : TOpt) (format : Fmt) (en : Bool) (oid : OOpt)
    (h1 : r.data = some d) (h2 : shape2 d = some (n, k)) (h3 : r.features = none)
    (h4 : r.onsets.length = n) (h5 : r.durations.length = n) (h6 : r.orders.length = n) :
    (r.history = none →
      r.to_df timing true format en oid = .error "NoneType object has no attribute to_df") ∧
    ∀ hst : History, r.history = some hst → r.stim.history = none →
      ∃ out, r.to_df TOpt.tru true Fmt.wide false OOpt.fls = .ok out ∧
        ∀ v ∈ out.colVals (ColId.flat "history"), v = Val.str "" := by
  have hkf : (featNames k).length = k := by simp [featNames]
  have hWbase : (baseDF d (featNames k)).WF := WF_baseDF h2 hkf
  constructor
  · intro hh
    simp [ExtractorResult.to_df, h1, h2, h3, h4, h5, h6, metadataStep, hh]
  · intro hst hh hsh
    have hW2 : ((((baseDF d (featNames k)).insertCol (ColId.flat "duration") Dtype.numeric
        (r.durations.map optVal)).insertCol (ColId.flat "order") Dtype.numeric
        (r.orders.map optVal)).insertCol (ColId.flat "onset") Dtype.numeric
        (r.onsets.map optVal)).WF :=
      DF.WF_insertCol (DF.WF_insertCol (DF.WF_insertCol hWbase _ _) _ _) _ _
    have hfeat : ∀ s2 ∈ ["object_id", "onset", "order", "duration", "feature", "value",
        "extractor", "stim_name", "class", "filename", "history", "source_file"],
        ColId.flat s2 ∉ (featNames k).map ColId.flat := by
      intro s2 hs2
      exact flat_not_mem_featCols k fun i => featName_not_reserved i s2 hs2
    have hhist2 : ColId.flat "history" ∉
        ((((baseDF d (featNames k)).insertCol (ColId.flat "duration") Dtype.numeric
          (r.durations.map optVal)).insertCol (ColId.flat "order") Dtype.numeric
          (r.orders.map optVal)).insertCol (ColId.flat "onset") Dtype.numeric
          (r.onsets.map optVal)).cols := by
      simp only [DF.cols_insertCol, baseDF, List.mem_cons]
      push_neg
      exact ⟨by decide, by decide, by decide, hfeat "history" (by simp)⟩
    obtain ⟨heq, hcol⟩ := metadataStep_history_col r hst hh
      ((((baseDF d (featNames k)).insertCol (ColId.flat "duration") Dtype.numeric
        (r.durations.map optVal)).insertCol (ColId.flat "order") Dtype.numeric
        (r.orders.map optVal)).insertCol (ColId.flat "onset") Dtype.numeric
        (r.onsets.map optVal)) hW2 hhist2
    have hto : r.to_df TOpt.tru true Fmt.wide false OOpt.fls = metadataStep r true
        ((((baseDF d (featNames k)).insertCol (ColId.flat "duration") Dtype.numeric
          (r.durations.map optVal)).insertCol (ColId.flat "order") Dtype.numeric
          (r.orders.map optVal)).insertCol (ColId.flat "onset") Dtype.numeric
          (r.onsets.map optVal)) := by
      simp [ExtractorResult.to_df, h1, h2, h3, h4, h5, h6, objectIdStep, timingStep,
        extractorNameStep]
    rw [hsh] at heq hcol
    exact ⟨_, hto.trans heq, hcol⟩

/-- A 1-row Result with history set but a stim without history. -/
def rHist : ExtractorResult :=
  { data := some [[Val.num 1, Val.num 2]], stim := stim0, extractor := extrA,
    features := none, raw := none, onsets := [none], durations := [none],
    orders := [none], history := some hist0 }

/-- Witness for C10: the error fires on a history-less concrete Result and
the stim-history fallback renders empty strings. -/
theorem claim_C10_metadata_history_error_witness :
    (rNoNames.history = none →
      rNoNames.to_df TOpt.tru true Fmt.wide false OOpt.fls =
        .error "NoneType object has no attribute to_df") ∧
    ∀ hst : History, rNoNames.history = some hst → rNoNames.stim.history = none →
      ∃ out, rNoNames.to_df TOpt.tru true Fmt.wide false OOpt.fls = .ok out ∧
        ∀ v ∈ out.colVals (ColId.flat "history"), v = Val.str "" :=
  claim_C10_metadata_history_error rNoNames [[Val.num 1, Val.num 2]] 1 2 TOpt.tru Fmt.wide
    false OOpt.fls rfl rfl rfl rfl rfl rfl

/-- C4 (amended): with object_id="auto" and no pre-existing object_id column,
to_df inserts the column exactly when the per-row (onset, duration) grouping
key takes more than one distinct value — not when the resulting object_id
column itself would be non-constant. -/
theorem claim_C4_object_id_auto (r : ExtractorResult) (d : List (List Val)) (n k : Nat)
    (h1 : r.data = some d) (h2 : shape2 d = some (n, k)) (h3 : r.features = none)
    (h4 : r.onsets.length = n) (h5 : r.durations.length = n) (h6 : r.orders.length = n) :
    ∃ out, r.to_df TOpt.fls false Fmt.wide false OOpt.auto = .ok out ∧
      (ColId.flat "object_id" ∈ out.cols ↔
        1 < (r.onsets.zip r.durations).dedup.length) := by
  have hooid : ColId.flat "object_id" ∉ (baseDF d (featNames k)).cols := by
    simpa [baseDF] using flat_not_mem_featCols k (fun i => featName_not_reserved i _ (by simp))
  by_cases hk : 1 < (r.onsets.zip r.durations).dedup.length
  · refine ⟨(baseDF d (featNames k)).insertCol (ColId.flat "object_id") Dtype.numeric
      (((if (r.onsets.zip r.durations).length = 1 then
          List.range (baseDF d (featNames k)).rows.length
        else cumcount (r.onsets.zip r.durations)).map fun i => Val.num i)), ?_, ?_⟩
    · simp [ExtractorResult.to_df, h1, h2, h3, h4, h5, h6, objectIdStep, timingStep,
        extractorNameStep, metadataStep, hooid, hk]
    · simp [DF.insertCol, hk]
  · refine ⟨baseDF d (featNames k), ?_, ?_⟩
    · simp [ExtractorResult.to_df, h1, h2, h3, h4, h5, h6, objectIdStep, timingStep,
        extractorNameStep, metadataStep, hooid, hk]
    · simp [hooid, hk]

/-- Two rows with distinct onsets but each (onset, duration) key occurring
once: auto mode inserts an object_id column that is constant. -/
def rC4 : ExtractorResult :=
  { data := some [[Val.num 1], [Val.num 2]], stim := stim0, extractor := extrA,
    features := none, raw := none, onsets := [some 1, some 2],
    durations := [some 0, some 0], orders := [none, none], history := none }

/-- C4 counterexample: at rC4 the object_id column is inserted although it is
the constant [0, 0] — insertion is not "exactly when the resulting column
would be non-constant". -/
theorem claim_C4_object_id_auto_counterexample :
    ∃ out, rC4.to_df TOpt.fls false Fmt.wide false OOpt.auto = .ok out ∧
      ColId.flat "object_id" ∈ out.cols ∧
      out.colVals (ColId.flat "object_id") = [Val.num 0, Val.num 0] := by
  refine ⟨_, rfl, ?_, ?_⟩ <;> decide

/-- Witness for C4 (amended) at the concrete two-row Result rC4. -/
theorem claim_C4_object_id_auto_witness :
    ∃ out, rC4.to_df TOpt.fls false Fmt.wide false OOpt.auto = .ok out ∧
      (ColId.flat "object_id" ∈ out.cols ↔
        1 < (rC4.onsets.zip rC4.durations).dedup.length) :=
  claim_C4_object_id_auto rC4 [[Val.num 1], [Val.num 2]] 2 1 rfl rfl rfl rfl rfl rfl

/-- C6: whenever the merged table has an onset column, its rows are sorted
ascending (missing values last) by the (onset, order, duration) key. -/
theorem claim_C6_merge_sorted (results : List ExtractorResult) (format : Fmt)
    (timing : TOpt) (metadata : Bool) (en : ENames) (oid : OOpt) (agg : Option Agg)
    (out : DF) (h : merge_results results format timing metadata en oid agg = .ok out)
    (hmem : ColId.flat "onset" ∈ out.cols) :
    out.rows.Pairwise (fun r1 r2 =>
      listLe (mergeSortKey out r1) (mergeSortKey out r2) = true) := by
  unfold merge_results at h
  obtain ⟨data3, h1, h⟩ := bindOk h
  obtain ⟨data4, h4, h5⟩ := bindOk h
  rcases tailMulti_cases h5 with rfl | rfl
  · have hc := cols_sortStage (timingPrune timing data4)
    rw [mergeSortKey_congr hc]
    exact sortStage_sorted _ (hc ▸ hmem)
  · exfalso
    rcases List.mem_map.mp hmem with ⟨c, _, hcs⟩
    exact splitSharp_ne_flat c "onset" hcs

/-- A one-row Result with given onset and value. -/
def rOn (q v : ℚ) : ExtractorResult :=
  { data := some [[Val.num v]], stim := stim0, extractor := extrA, features := some ["f"],
    raw := none, onsets := [some q], durations := [some 1], orders := [none],
    history := some hist0 }

/-- C1: in a wide merge over a pre-pivot long table whose rows may carry
missing (NaN) index values — e.g. missing onsets — the sentinel substitution
removes every missing value from the index columns immediately before
pivoting, and the merged output restores the original missing-value cells
and the original index-column dtypes exactly, so that every input row's
group key (missing values included) is present in the output: no row is
dropped. -/
theorem claim_C1_wide_sentinel_roundtrip
    (results : List ExtractorResult) (metadata : Bool) (en0 : ENames) (oid : OOpt)
    (agg : Option Agg) (data3 out : DF)
    (hen : normalizeEN en0 ≠ ENames.multi)
    (h3 : mergeLong results TOpt.tru metadata en0 oid = .ok data3)
    (hW : data3.WF)
    (hDt : ∀ c ∈ mergeIndCols data3, data3.dtypeOfCol c = Dtype.numeric →
      ∀ row ∈ data3.rows, (data3.cell row c).isNumericOrNan = true)
    (hSent : ∀ c ∈ mergeIndCols data3, ∀ row ∈ data3.rows, data3.cell row c ≠ sentinel)
    (hm : merge_results results Fmt.wide TOpt.tru metadata en0 oid agg = .ok out) :
    (∀ row2 ∈ (data3.fillnaCols (mergeIndCols data3)).rows, ∀ c ∈ mergeIndCols data3,
      (data3.fillnaCols (mergeIndCols data3)).cell row2 c ≠ Val.nan) ∧
    (∀ c ∈ mergeIndCols data3, out.dtypeOfCol c = data3.dtypeOfCol c) ∧
    ∀ row ∈ data3.rows, ∃ prow ∈ out.rows,
      ∀ c ∈ mergeIndCols data3, out.cell prow c = data3.cell row c := by
  unfold merge_results at hm
  obtain ⟨d3, hd3, hm⟩ := bindOk hm
  rw [h3] at hd3
  have hde : data3 = d3 := Except.ok.inj hd3
  subst hde
  obtain ⟨d4, hd4, hm⟩ := bindOk hm
  rw [if_pos rfl] at hd4
  obtain ⟨wout, hwok, hwcols, hwdt, hwrows⟩ := wideStage_spec data3 agg hW hDt hSent
  rw [hwok] at hd4
  have hd4e : wout = d4 := Except.ok.inj hd4
  subst hd4e
  rw [timingPrune_tru] at hm
  have hout : out = sortStage wout := by
    unfold tailMulti at hm
    rw [if_neg hen] at hm
    exact (Except.ok.inj hm).symm
  subst hout
  refine ⟨?_, ?_, ?_⟩
  · intro row2 hrow2 c hc
    rw [rows_fillnaCols_eq] at hrow2
    rcases List.mem_map.mp hrow2 with ⟨r0, hr0, rfl⟩
    rw [DF.fillna_cell_mem hr0 hW (mem_mergeIndCols.mp hc).2 hc]
    exact fillCell_ne_nan _
  · intro c hc
    rw [dtypeOfCol_sortStage]
    exact hwdt c hc
  · intro row hrow
    obtain ⟨prow, hprow, hcells⟩ := hwrows row hrow
    refine ⟨prow, (rows_sortStage_mem wout).mpr hprow, ?_⟩
    intro c hc
    rw [DF.cell_congr_cols (cols_sortStage wout)]
    exact hcells c hc

/-- A Result with two rows, half of them with a missing onset. -/
def rMixOnset : ExtractorResult :=
  { data := some [[Val.num 5], [Val.num 6]], stim := stim0, extractor := extrA,
    features := some ["f"], raw := none, onsets := [some 1, none],
    durations := [some 1, some 2], orders := [none, none], history := some hist0 }

/-- Witness for C1: a concrete wide merge where 50% of rows have missing
onset keeps both rows, restores the NaN and restores the dtypes. -/
theorem claim_C1_wide_sentinel_roundtrip_witness :
    ∃ data3 out, mergeLong [rMixOnset] TOpt.tru false ENames.fls OOpt.tru = .ok data3 ∧
      merge_results [rMixOnset] Fmt.wide TOpt.tru false ENames.fls OOpt.tru none = .ok out ∧
      ((∀ row2 ∈ (data3.fillnaCols (mergeIndCols data3)).rows, ∀ c ∈ mergeIndCols data3,
        (data3.fillnaCols (mergeIndCols data3)).cell row2 c ≠ Val.nan) ∧
      (∀ c ∈ mergeIndCols data3, out.dtypeOfCol c = data3.dtypeOfCol c) ∧
      ∀ row ∈ data3.rows, ∃ prow ∈ out.rows,
        ∀ c ∈ mergeIndCols data3, out.cell prow c = data3.cell row c) := by
  refine ⟨_, _, rfl, rfl, ?_⟩
  exact claim_C1_wide_sentinel_roundtrip [rMixOnset] false ENames.fls OOpt.tru none _ _
    (by decide) rfl (by decide) (by decide) (by decide) rfl

/-! ### C5: feature-name collisions across extractors -/

/-- A one-row Result from ExtractorA carrying a single feature "score". -/
def rScoreA (o : Option ℚ) (v : ℚ) : ExtractorResult :=
  { data := some [[Val.num v]], stim := stim0, extractor := extrA, features := some ["score"],
    raw := none, onsets := [o], durations := [some 1], orders := [none],
    history := some hist0 }

/-- A one-row Result from ExtractorB carrying the same feature name "score". -/
def rScoreB (o : Option ℚ) (v : ℚ) : ExtractorResult :=
  { data := some [[Val.num v]], stim := stim0, extractor := extrB, features := some ["score"],
    raw := none, onsets := [o], durations := [some 1], orders := [none],
    history := some hist0 }

/-- The long-phase table of merging [rScoreA o1 v1, rScoreB o2 v2] in the
modes that rewrite the feature names and drop the extractor column
("prepend" and "multi", base.py:265-269). -/
def scoreLongDF (o1 o2 : Option ℚ) (v1 v2 : ℚ) : DF :=
  { cols := [ColId.flat "object_id", ColId.flat "onset", ColId.flat "order",
      ColId.flat "duration", ColId.flat "feature", ColId.flat "value"],
    dtypes := [Dtype.numeric, Dtype.numeric, Dtype.numeric, Dtype.numeric, Dtype.obj,
      Dtype.numeric],
    rows := [[Val.num 0, optVal o1, Val.nan, Val.num 1, Val.str "ExtractorA#score", Val.num v1],
      [Val.num 0, optVal o2, Val.nan, Val.num 1, Val.str "ExtractorB#score", Val.num v2]] }

/-- The long-phase table in "column" mode: feature names untouched, the
extractor column kept. -/
def scoreLongColDF (o1 o2 : Option ℚ) (v1 v2 : ℚ) : DF :=
  { cols := [ColId.flat "object_id", ColId.flat "onset", ColId.flat "order",
      ColId.flat "duration", ColId.flat "feature", ColId.flat "value", ColId.flat "extractor"],
    dtypes := [Dtype.numeric, Dtype.numeric, Dtype.numeric, Dtype.numeric, Dtype.obj,
      Dtype.numeric, Dtype.obj],
    rows := [[Val.num 0, optVal o1, Val.nan, Val.num 1, Val.str "score", Val.num v1,
      Val.str "ExtractorA"],
      [Val.num 0, optVal o2, Val.nan, Val.num 1, Val.str "score", Val.num v2,
      Val.str "ExtractorB"]] }

/-- The long rendering of one score-feature Result. -/
def scoreOneDF (name : String) (o : Option ℚ) (v : ℚ) : DF :=
  { cols := [ColId.flat "object_id", ColId.flat "onset", ColId.flat "order",
      ColId.flat "duration", ColId.flat "feature", ColId.flat "value", ColId.flat "extractor"],
    dtypes := [Dtype.numeric, Dtype.numeric, Dtype.numeric, Dtype.numeric, Dtype.obj,
      Dtype.numeric, Dtype.obj],
    rows := [[Val.num 0, optVal o, Val.nan, Val.num 1, Val.str "score", Val.num v,
      Val.str name]] }

set_option maxHeartbeats 800000 in
theorem scoreA_todf (o : Option ℚ) (v : ℚ) :
    (rScoreA o v).to_df TOpt.tru false Fmt.long true OOpt.tru =
      .ok (scoreOneDF "ExtractorA" o v) := rfl

set_option maxHeartbeats 800000 in
theorem scoreB_todf (o : Option ℚ) (v : ℚ) :
    (rScoreB o v).to_df TOpt.tru false Fmt.long true OOpt.tru =
      .ok (scoreOneDF "ExtractorB" o v) := rfl

theorem scoreMapM (o1 o2 : Option ℚ) (v1 v2 : ℚ) :
    ([rScoreA o1 v1, rScoreB o2 v2].mapM fun r =>
      r.to_df TOpt.tru false Fmt.long true OOpt.tru) =
    .ok [scoreOneDF "ExtractorA" o1 v1, scoreOneDF "ExtractorB" o2 v2] := by
  show (do
    let a ← (rScoreA o1 v1).to_df TOpt.tru false Fmt.long true OOpt.tru
    let b ← (rScoreB o2 v2).to_df TOpt.tru false Fmt.long true OOpt.tru
    pure [a, b] : Except String (List DF)) = _
  rw [scoreA_todf o1 v1, scoreB_todf o2 v2]
  rfl

theorem scoreCat (o1 o2 : Option ℚ) (v1 v2 : ℚ) :
    concatDFs [scoreOneDF "ExtractorA" o1 v1, scoreOneDF "ExtractorB" o2 v2] =
      .ok (scoreLongColDF o1 o2 v1 v2) := rfl

/-- The long phase on the two score Results, for every extractor_names mode:
concatenation (base.py:260) is followed only by the feature rewrite and the
extractor-column drop. -/
theorem scoreLong_stage (en : ENames) (o1 o2 : Option ℚ) (v1 v2 : ℚ) :
    mergeLong [rScoreA o1 v1, rScoreB o2 v2] TOpt.tru false en OOpt.tru =
      .ok (extractorDrop (normalizeEN en)
        (nameRewrite (normalizeEN en) (scoreLongColDF o1 o2 v1 v2))) := by
  show ([rScoreA o1 v1, rScoreB o2 v2].mapM fun r =>
      r.to_df TOpt.tru false Fmt.long true OOpt.tru) >>= (fun dfs =>
      concatDFs dfs >>= fun data0 =>
      objectIdPrune OOpt.tru data0 >>= fun data1 =>
      .ok (extractorDrop (normalizeEN en) (nameRewrite (normalizeEN en) data1))) = _
  rw [scoreMapM o1 o2 v1 v2]
  show concatDFs [scoreOneDF "ExtractorA" o1 v1, scoreOneDF "ExtractorB" o2 v2] >>=
      (fun data0 => objectIdPrune OOpt.tru data0 >>= fun data1 =>
      .ok (extractorDrop (normalizeEN en) (nameRewrite (normalizeEN en) data1))) = _
  rw [scoreCat o1 o2 v1 v2]
  rfl

set_option maxHeartbeats 800000 in
theorem scoreLong_prepend (o1 o2 : Option ℚ) (v1 v2 : ℚ) :
    mergeLong [rScoreA o1 v1, rScoreB o2 v2] TOpt.tru false ENames.prepend OOpt.tru =
      .ok (scoreLongDF o1 o2 v1 v2) := by
  rw [scoreLong_stage ENames.prepend o1 o2 v1 v2]
  rfl

set_option maxHeartbeats 800000 in
theorem scoreLong_multi (o1 o2 : Option ℚ) (v1 v2 : ℚ) :
    mergeLong [rScoreA o1 v1, rScoreB o2 v2] TOpt.tru false ENames.multi OOpt.tru =
      .ok (scoreLongDF o1 o2 v1 v2) := by
  rw [scoreLong_stage ENames.multi o1 o2 v1 v2]
  rfl

theorem scoreLong_column (o1 o2 : Option ℚ) (v1 v2 : ℚ) :
    mergeLong [rScoreA o1 v1, rScoreB o2 v2] TOpt.tru false ENames.column OOpt.tru =
      .ok (scoreLongColDF o1 o2 v1 v2) := by
  rw [scoreLong_stage ENames.column o1 o2 v1 v2]
  rfl

theorem scoreLongDF_cols (o1 o2 : Option ℚ) (v1 v2 : ℚ) :
    (scoreLongDF o1 o2 v1 v2).cols = [ColId.flat "object_id", ColId.flat "onset",
      ColId.flat "order", ColId.flat "duration", ColId.flat "feature",
      ColId.flat "value"] := rfl

theorem scoreLongColDF_cols (o1 o2 : Option ℚ) (v1 v2 : ℚ) :
    (scoreLongColDF o1 o2 v1 v2).cols = [ColId.flat "object_id", ColId.flat "onset",
      ColId.flat "order", ColId.flat "duration", ColId.flat "feature", ColId.flat "value",
      ColId.flat "extractor"] := rfl

theorem scoreLongDF_rows (o1 o2 : Option ℚ) (v1 v2 : ℚ) :
    (scoreLongDF o1 o2 v1 v2).rows =
      [[Val.num 0, optVal o1, Val.nan, Val.num 1, Val.str "ExtractorA#score", Val.num v1],
       [Val.num 0, optVal o2, Val.nan, Val.num 1, Val.str "ExtractorB#score",
        Val.num v2]] := rfl

theorem scoreLongDF_ind (o1 o2 : Option ℚ) (v1 v2 : ℚ) :
    mergeIndCols (scoreLongDF o1 o2 v1 v2) =
      [ColId.flat "onset", ColId.flat "order", ColId.flat "duration",
       ColId.flat "object_id"] := rfl

theorem scoreLongDF_WF (o1 o2 : Option ℚ) (v1 v2 : ℚ) : (scoreLongDF o1 o2 v1 v2).WF := by
  intro row hrow
  rw [scoreLongDF_rows] at hrow
  simp only [List.mem_cons, List.not_mem_nil, or_false] at hrow
  rcases hrow with rfl | rfl <;> rfl

theorem scoreLongDF_hDt (o1 o2 : Option ℚ) (v1 v2 : ℚ) :
    ∀ c ∈ mergeIndCols (scoreLongDF o1 o2 v1 v2),
      (scoreLongDF o1 o2 v1 v2).dtypeOfCol c = Dtype.numeric →
      ∀ row ∈ (scoreLongDF o1 o2 v1 v2).rows,
        ((scoreLongDF o1 o2 v1 v2).cell row c).isNumericOrNan = true := by
  intro c hc
  rw [scoreLongDF_ind] at hc
  fin_cases hc <;>
    (intro _ row hrow
     rw [scoreLongDF_rows] at hrow
     simp only [List.mem_cons, List.not_mem_nil, or_false] at hrow
     rcases hrow with rfl | rfl <;>
       first
        | rfl
        | exact optVal_isNumericOrNan o1
        | exact optVal_isNumericOrNan o2)

theorem scoreLongDF_hSent (o1 o2 : Option ℚ) (v1 v2 : ℚ) :
    ∀ c ∈ mergeIndCols (scoreLongDF o1 o2 v1 v2),
      ∀ row ∈ (scoreLongDF o1 o2 v1 v2).rows,
        (scoreLongDF o1 o2 v1 v2).cell row c ≠ sentinel := by
  intro c hc
  rw [scoreLongDF_ind] at hc
  fin_cases hc <;>
    (intro row hrow
     rw [scoreLongDF_rows] at hrow
     simp only [List.mem_cons, List.not_mem_nil, or_false] at hrow
     rcases hrow with rfl | rfl <;>
       first
        | exact optVal_ne_sentinel o1
        | exact optVal_ne_sentinel o2
        | exact (by decide : Val.nan ≠ sentinel)
        | exact (by decide : Val.num 0 ≠ sentinel)
        | exact (by decide : Val.num 1 ≠ sentinel))

/-- The fillna of the wide stage leaves the feature column untouched. -/
theorem scoreLong_fill_feature (o1 o2 : Option ℚ) (v1 v2 : ℚ) (row : List Val)
    (hrow : row ∈ (scoreLongDF o1 o2 v1 v2).rows) :
    ((scoreLongDF o1 o2 v1 v2).fillnaCols [ColId.flat "onset", ColId.flat "order",
        ColId.flat "duration", ColId.flat "object_id"]).cell
      (fillRowF (scoreLongDF o1 o2 v1 v2) [ColId.flat "onset", ColId.flat "order",
        ColId.flat "duration", ColId.flat "object_id"] row) (ColId.flat "feature") =
      (scoreLongDF o1 o2 v1 v2).cell row (ColId.flat "feature") :=
  DF.fillna_cell_not_mem hrow (scoreLongDF_WF o1 o2 v1 v2) (by decide)

/-- The column labels of the wide pivot over the collided-score table: the
index columns followed by the two rewritten feature columns. -/
theorem scoreLong_piv_cols (o1 o2 : Option ℚ) (v1 v2 : ℚ) :
    (widePivOf none (scoreLongDF o1 o2 v1 v2)).cols =
      [ColId.flat "onset", ColId.flat "order", ColId.flat "duration", ColId.flat "object_id",
       ColId.flat "ExtractorA#score", ColId.flat "ExtractorB#score"] := by
  have hW := scoreLongDF_WF o1 o2 v1 v2
  have hrow1 : [Val.num 0, optVal o1, Val.nan, Val.num 1, Val.str "ExtractorA#score",
      Val.num v1] ∈ (scoreLongDF o1 o2 v1 v2).rows := by
    rw [scoreLongDF_rows]
    exact List.mem_cons_self _ _
  have hrow2 : [Val.num 0, optVal o2, Val.nan, Val.num 1, Val.str "ExtractorB#score",
      Val.num v2] ∈ (scoreLongDF o1 o2 v1 v2).rows := by
    rw [scoreLongDF_rows]
    exact List.mem_cons_of_mem _ (List.mem_cons_self _ _)
  have hallfill : ∀ row2 ∈ ((scoreLongDF o1 o2 v1 v2).fillnaCols
      [ColId.flat "onset", ColId.flat "order", ColId.flat "duration",
       ColId.flat "object_id"]).rows,
      ∀ c ∈ [ColId.flat "onset", ColId.flat "order", ColId.flat "duration",
       ColId.flat "object_id"],
      ((scoreLongDF o1 o2 v1 v2).fillnaCols [ColId.flat "onset", ColId.flat "order",
        ColId.flat "duration", ColId.flat "object_id"]).cell row2 c ≠ Val.nan := by
    intro row2 hrow2m c hc
    rw [rows_fillnaCols_eq] at hrow2m
    rcases List.mem_map.mp hrow2m with ⟨r0, hr0, rfl⟩
    have hcc : c ∈ (scoreLongDF o1 o2 v1 v2).cols := by
      rw [scoreLongDF_cols]
      revert c
      exact (by decide : ∀ c ∈ [ColId.flat "onset", ColId.flat "order", ColId.flat "duration",
        ColId.flat "object_id"], c ∈ [ColId.flat "object_id", ColId.flat "onset",
        ColId.flat "order", ColId.flat "duration", ColId.flat "feature", ColId.flat "value"])
    rw [DF.fillna_cell_mem hr0 hW hcc hc]
    exact fillCell_ne_nan _
  have hcf1 : (scoreLongDF o1 o2 v1 v2).cell [Val.num 0, optVal o1, Val.nan, Val.num 1,
      Val.str "ExtractorA#score", Val.num v1] (ColId.flat "feature") =
      Val.str "ExtractorA#score" := rfl
  have hcf2 : (scoreLongDF o1 o2 v1 v2).cell [Val.num 0, optVal o2, Val.nan, Val.num 1,
      Val.str "ExtractorB#score", Val.num v2] (ColId.flat "feature") =
      Val.str "ExtractorB#score" := rfl
  unfold widePivOf
  rw [scoreLongDF_ind, DF.cols_pivotTable_eq, DF.pivot_kept_eq hallfill,
    rows_fillnaCols_eq, scoreLongDF_rows]
  simp only [List.map_cons, List.map_nil]
  rw [scoreLong_fill_feature o1 o2 v1 v2 _ hrow1, scoreLong_fill_feature o1 o2 v1 v2 _ hrow2]
  rw [hcf1, hcf2]
  decide

/-- C5: merging two Results from differently named extractors that both
produce a feature called "score" with extractor_names="prepend" rewrites
every feature name to extractor#feature — the wide table has columns
ExtractorA#score and ExtractorB#score and no silently merged "score" column,
and in "multi" mode the corresponding two-level columns; in long format the
rewritten names are the only feature values — and the extractor column
itself is dropped from the output unless the mode is "column". -/
theorem claim_C5_name_collision (o1 o2 : Option ℚ) (v1 v2 : ℚ) :
    (∀ out, merge_results [rScoreA o1 v1, rScoreB o2 v2] Fmt.wide TOpt.tru false
        ENames.prepend OOpt.tru none = .ok out →
      ColId.flat "ExtractorA#score" ∈ out.cols ∧ ColId.flat "ExtractorB#score" ∈ out.cols ∧
      ColId.flat "score" ∉ out.cols ∧ ColId.flat "extractor" ∉ out.cols) ∧
    (∀ out, merge_results [rScoreA o1 v1, rScoreB o2 v2] Fmt.wide TOpt.tru false
        ENames.multi OOpt.tru none = .ok out →
      ColId.pair "ExtractorA" "score" ∈ out.cols ∧ ColId.pair "ExtractorB" "score" ∈ out.cols ∧
      ColId.flat "extractor" ∉ out.cols) ∧
    (∀ out, merge_results [rScoreA o1 v1, rScoreB o2 v2] Fmt.long TOpt.tru false
        ENames.prepend OOpt.tru none = .ok out →
      ColId.flat "extractor" ∉ out.cols ∧
      ∀ row ∈ out.rows, out.cell row (ColId.flat "feature") ∈
        [Val.str "ExtractorA#score", Val.str "ExtractorB#score"]) ∧
    ∀ out, merge_results [rScoreA o1 v1, rScoreB o2 v2] Fmt.long TOpt.tru false
        ENames.column OOpt.tru none = .ok out →
      ColId.flat "extractor" ∈ out.cols := by
  obtain ⟨wout, hwok, hwcols, hwdt, hwrows⟩ := wideStage_spec (scoreLongDF o1 o2 v1 v2) none
    (scoreLongDF_WF o1 o2 v1 v2) (scoreLongDF_hDt o1 o2 v1 v2) (scoreLongDF_hSent o1 o2 v1 v2)
  refine ⟨?_, ?_, ?_, ?_⟩
  · intro out hm
    unfold merge_results at hm
    obtain ⟨d3, hd3, hm⟩ := bindOk hm
    rw [scoreLong_prepend] at hd3
    have hde : scoreLongDF o1 o2 v1 v2 = d3 := Except.ok.inj hd3
    subst hde
    obtain ⟨d4, hd4, hm⟩ := bindOk hm
    rw [if_pos rfl, hwok] at hd4
    have hd4e : wout = d4 := Except.ok.inj hd4
    subst hd4e
    rw [timingPrune_tru] at hm
    have hout : sortStage wout = out := Except.ok.inj hm
    have hoc : out.cols = [ColId.flat "onset", ColId.flat "order", ColId.flat "duration",
        ColId.flat "object_id", ColId.flat "ExtractorA#score",
        ColId.flat "ExtractorB#score"] := by
      rw [← hout, cols_sortStage, hwcols, scoreLong_piv_cols]
    rw [hoc]
    decide
  · intro out hm
    unfold merge_results at hm
    obtain ⟨d3, hd3, hm⟩ := bindOk hm
    rw [scoreLong_multi] at hd3
    have hde : scoreLongDF o1 o2 v1 v2 = d3 := Except.ok.inj hd3
    subst hde
    obtain ⟨d4, hd4, hm⟩ := bindOk hm
    rw [if_pos rfl, hwok] at hd4
    have hd4e : wout = d4 := Except.ok.inj hd4
    subst hd4e
    rw [timingPrune_tru] at hm
    have hout : ({ sortStage wout with
        cols := (sortStage wout).cols.map splitSharp } : DF) = out := Except.ok.inj hm
    have hoc : out.cols = [ColId.flat "onset", ColId.flat "order", ColId.flat "duration",
        ColId.flat "object_id", ColId.flat "ExtractorA#score",
        ColId.flat "ExtractorB#score"].map splitSharp := by
      rw [← hout]
      show (sortStage wout).cols.map splitSharp = _
      rw [cols_sortStage, hwcols, scoreLong_piv_cols]
    rw [hoc]
    decide
  · intro out hm
    unfold merge_results at hm
    obtain ⟨d3, hd3, hm⟩ := bindOk hm
    rw [scoreLong_prepend] at hd3
    have hde : scoreLongDF o1 o2 v1 v2 = d3 := Except.ok.inj hd3
    subst hde
    obtain ⟨d4, hd4, hm⟩ := bindOk hm
    have hd4e : scoreLongDF o1 o2 v1 v2 = d4 := Except.ok.inj hd4
    subst hd4e
    rw [timingPrune_tru] at hm
    have hout : sortStage (scoreLongDF o1 o2 v1 v2) = out := Except.ok.inj hm
    constructor
    · rw [← hout, cols_sortStage, scoreLongDF_cols]
      decide
    · intro row hrow
      rw [← hout] at hrow ⊢
      rw [rows_sortStage_mem] at hrow
      rw [DF.cell_congr_cols (cols_sortStage (scoreLongDF o1 o2 v1 v2))]
      rw [scoreLongDF_rows] at hrow
      simp only [List.mem_cons, List.not_mem_nil, or_false] at hrow
      rcases hrow with rfl | rfl
      · exact List.mem_cons_self _ _
      · exact List.mem_cons_of_mem _ (List.mem_cons_self _ _)
  · intro out hm
    unfold merge_results at hm
    obtain ⟨d3, hd3, hm⟩ := bindOk hm
    rw [scoreLong_column] at hd3
    have hde : scoreLongColDF o1 o2 v1 v2 = d3 := Except.ok.inj hd3
    subst hde
    obtain ⟨d4, hd4, hm⟩ := bindOk hm
    have hd4e : scoreLongColDF o1 o2 v1 v2 = d4 := Except.ok.inj hd4
    subst hd4e
    rw [timingPrune_tru] at hm
    have hout : sortStage (scoreLongColDF o1 o2 v1 v2) = out := Except.ok.inj hm
    rw [← hout, cols_sortStage, scoreLongColDF_cols]
    decide

/-- Witness for C5: the concrete merge of a score-feature Result from
ExtractorA with one from ExtractorB, in the prepend-wide, multi-wide and
column-long configurations. -/
theorem claim_C5_name_collision_witness :
    (∃ out, merge_results [rScoreA (some 0) 1, rScoreB (some 3) 2] Fmt.wide TOpt.tru false
        ENames.prepend OOpt.tru none = .ok out ∧
      ColId.flat "ExtractorA#score" ∈ out.cols ∧ ColId.flat "ExtractorB#score" ∈ out.cols ∧
      ColId.flat "score" ∉ out.cols ∧ ColId.flat "extractor" ∉ out.cols) ∧
    (∃ out, merge_results [rScoreA (some 0) 1, rScoreB (some 3) 2] Fmt.wide TOpt.tru false
        ENames.multi OOpt.tru none = .ok out ∧
      ColId.pair "ExtractorA" "score" ∈ out.cols ∧
      ColId.pair "ExtractorB" "score" ∈ out.cols) ∧
    ∃ out, merge_results [rScoreA (some 0) 1, rScoreB (some 3) 2] Fmt.long TOpt.tru false
        ENames.column OOpt.tru none = .ok out ∧ ColId.flat "extractor" ∈ out.cols := by
  refine ⟨⟨_, rfl, ?_⟩, ⟨_, rfl, ?_⟩, ⟨_, rfl, ?_⟩⟩
  · exact (claim_C5_name_collision (some 0) (some 3) 1 2).1 _ rfl
  · have h := (claim_C5_name_collision (some 0) (some 3) 1 2).2.1 _ rfl
    exact ⟨h.1, h.2.1⟩
  · exact (claim_C5_name_collision (some 0) (some 3) 1 2).2.2.2 _ rfl

/-! ### C2: merging a singleton list versus direct rendering -/

theorem rows_sortStage_perm (df : DF) : List.Perm (sortStage df).rows df.rows := by
  unfold sortStage
  split
  · exact perm_isortB _ _
  · exact List.Perm.refl _

theorem concatDFs_single (d : DF) : concatDFs [d] = .ok d := by
  show Except.ok (DF.mk d.cols d.dtypes (d.rows ++ [])) = Except.ok d
  rw [List.append_nil]

/-- The long phase of a singleton merge with non-auto flags returns the
per-result rendering unchanged. -/
theorem mergeLong_single_column (r : ExtractorResult) (timing : TOpt) (metadata : Bool)
    (oid : OOpt) (df : DF) (ht : timing ≠ TOpt.auto) (ho : oid ≠ OOpt.auto)
    (h : r.to_df timing metadata Fmt.long true oid = .ok df) :
    mergeLong [r] timing metadata ENames.column oid = .ok df := by
  show ([r].mapM fun r2 => r2.to_df (if timing = TOpt.auto then TOpt.tru else timing)
      metadata Fmt.long true (if oid = OOpt.auto then OOpt.tru else oid)) >>= (fun dfs =>
      concatDFs dfs >>= fun data0 =>
      objectIdPrune oid data0 >>= fun data1 =>
      .ok (extractorDrop (normalizeEN ENames.column)
        (nameRewrite (normalizeEN ENames.column) data1))) = _
  rw [if_neg ht, if_neg ho]
  show (r.to_df timing metadata Fmt.long true oid >>= fun a =>
      (pure [a] : Except String (List DF))) >>= (fun dfs =>
      concatDFs dfs >>= fun data0 =>
      objectIdPrune oid data0 >>= fun data1 =>
      .ok (extractorDrop (normalizeEN ENames.column)
        (nameRewrite (normalizeEN ENames.column) data1))) = _
  rw [h]
  show concatDFs [df] >>= (fun data0 =>
      objectIdPrune oid data0 >>= fun data1 =>
      .ok (extractorDrop (normalizeEN ENames.column)
        (nameRewrite (normalizeEN ENames.column) data1))) = _
  rw [concatDFs_single df]
  show objectIdPrune oid df >>= (fun data1 =>
      .ok (extractorDrop (normalizeEN ENames.column)
        (nameRewrite (normalizeEN ENames.column) data1))) = _
  have hop : objectIdPrune oid df = .ok df := by
    unfold objectIdPrune
    rw [if_neg ho]
  rw [hop]
  rfl

/-- C2 (amended): for every single Result and matched non-auto options —
timing and object_id both True or both False, any metadata — merging the
one-element list in long format with extractor_names="column" returns a
table with exactly the columns of the direct to_df rendering (whose long
format also carries the extractor column) and a permutation of its rows
(the merge tail re-sorts them by the timing key).  With matched "auto"
options the two sides genuinely diverge, as the counterexample shows. -/
theorem claim_C2_single_result_merge (r : ExtractorResult) (timing : TOpt) (metadata : Bool)
    (oid : OOpt) (df : DF) (ht : timing ≠ TOpt.auto) (ho : oid ≠ OOpt.auto)
    (h : r.to_df timing metadata Fmt.long true oid = .ok df) :
    ∃ out, merge_results [r] Fmt.long timing metadata ENames.column oid none = .ok out ∧
      out.cols = df.cols ∧ List.Perm out.rows df.rows := by
  have hml := mergeLong_single_column r timing metadata oid df ht ho h
  have htp : timingPrune timing df = df := by
    have hcond : ¬(timing = TOpt.auto ∧ ColId.flat "onset" ∈ df.cols ∧
        ∀ v ∈ df.colVals (ColId.flat "onset"), v = Val.nan) := fun hand => ht hand.1
    unfold timingPrune
    rw [if_neg hcond]
  have hmr : merge_results [r] Fmt.long timing metadata ENames.column oid none =
      .ok (sortStage (timingPrune timing df)) := by
    unfold merge_results
    rw [hml]
    rfl
  refine ⟨sortStage (timingPrune timing df), hmr, ?_, ?_⟩
  · rw [htp, cols_sortStage]
  · rw [htp]
    exact rows_sortStage_perm df

/-- A Result whose onsets are present but whose durations and orders are all
missing: to_df's "auto" timing looks only at durations/orders, while the
merge tail prunes only when every onset is missing. -/
def rAutoT : ExtractorResult :=
  { data := some [[Val.num 1], [Val.num 2]], stim := stim0, extractor := extrA,
    features := some ["f"], raw := none, onsets := [some 1, some 2],
    durations := [none, none], orders := [none, none], history := some hist0 }

/-- A Result whose rows share one (onset, duration) key: to_df's "auto"
object_id inserts nothing, while the merge inserts the cumulative counter
and keeps it because it is non-constant. -/
def rAutoO : ExtractorResult :=
  { data := some [[Val.num 1], [Val.num 2]], stim := stim0, extractor := extrA,
    features := some ["f"], raw := none, onsets := [some 1, some 1],
    durations := [some 0, some 0], orders := [none, none], history := some hist0 }

/-- Counterexample to C2 as stated: with matched "auto" timing the merged
table has a populated onset column that the direct rendering lacks, and with
matched "auto" object_id the merged table has a non-constant object_id
column that the direct rendering lacks — the tables are not row-equivalent. -/
theorem claim_C2_single_result_merge_counterexample :
    (∃ df out, rAutoT.to_df TOpt.auto false Fmt.long true OOpt.tru = .ok df ∧
      merge_results [rAutoT] Fmt.long TOpt.auto false ENames.column OOpt.tru none = .ok out ∧
      ColId.flat "onset" ∉ df.cols ∧ ColId.flat "onset" ∈ out.cols) ∧
    ∃ df out, rAutoO.to_df TOpt.tru false Fmt.long true OOpt.auto = .ok df ∧
      merge_results [rAutoO] Fmt.long TOpt.tru false ENames.column OOpt.auto none = .ok out ∧
      ColId.flat "object_id" ∉ df.cols ∧ ColId.flat "object_id" ∈ out.cols := by
  refine ⟨⟨_, _, rfl, rfl, ?_, ?_⟩, ⟨_, _, rfl, rfl, ?_, ?_⟩⟩ <;> decide

/-- Witness for C2 at a concrete Result with timing and object_id True. -/
theorem claim_C2_single_result_merge_witness :
    ∃ df, rEx.to_df TOpt.tru false Fmt.long true OOpt.tru = .ok df ∧
      ∃ out, merge_results [rEx] Fmt.long TOpt.tru false ENames.column OOpt.tru none =
        .ok out ∧ out.cols = df.cols ∧ List.Perm out.rows df.rows :=
  ⟨_, rfl, claim_C2_single_result_merge rEx TOpt.tru false OOpt.tru _ (by decide) (by decide)
    rfl⟩

/-- Witness for C6: merging Results with onsets [3, 1, 2] yields onset order
[1, 2, 3]. -/
theorem claim_C6_merge_sorted_witness :
    ∃ out, merge_results [rOn 3 30, rOn 1 10, rOn 2 20] Fmt.wide TOpt.tru false ENames.fls
        OOpt.tru none = .ok out ∧
      out.rows.Pairwise (fun r1 r2 =>
        listLe (mergeSortKey out r1) (mergeSortKey out r2) = true) ∧
      out.colVals (ColId.flat "onset") = [Val.num 1, Val.num 2, Val.num 3] := by
  refine ⟨_, rfl, ?_, ?_⟩
  · refine claim_C6_merge_sorted [rOn 3 30, rOn 1 10, rOn 2 20] Fmt.wide TOpt.tru false
      ENames.fls OOpt.tru none _ rfl ?_
    decide
  · decide

end Pliers
